import Mathlib

set_option maxRecDepth 16000

/-!
Shallow embedding of `src/writeABF.py` (repository dervinism/abfUtilities).

The Python function `writeABF(channelData, filename, sampleRateHz, units)`
builds an ABF1 file image in a `bytearray` and writes it to disk.  We model:

* numpy arrays as a shape (row-major) plus a flat list of exact rationals
  (Python floats are modelled as exact rational arithmetic);
* the mutable `bytearray` as its size plus the byte value at each offset
  (`ByteBuf`); `render` lists its bytes in order, i.e. the file content;
* `struct.pack_into` with the formats the source uses (`'4s'`, `'f'`, `'h'`,
  `'i'`, `'8s'`, `'<n>h'`), including its bounds and range checks;
* `float32` header fields through a genuine IEEE-754 binary32 encoder
  (round to nearest, ties to even) applied to the exact rational value;
* Python exceptions (`IndexError`, `ValueError`, `ZeroDivisionError`,
  `struct.error`, `TypeError`, `NameError`) as an `Except` result.

The final buffer returned by the model is exactly the byte string the Python
function writes to the destination file; an `Except.error` means the Python
call raises before the `open(filename, 'wb')` at the end, so no file is
produced.
-/

namespace AbfWrite

/-- Python exceptions that `writeABF` can raise. -/
inductive PyErr where
  | indexError
  | valueError
  | zeroDivisionError
  | structError
  | typeError
  | nameError
deriving DecidableEq, Repr

/-- A byte buffer: list of byte values (each intended `< 256`). -/
abbrev Buf := List Nat

/-- Model of a numpy ndarray: row-major shape plus flat data. -/
structure NDArray where
  shape : List Nat
  data : List ℚ
deriving DecidableEq, Repr

/-- Product of a list of dimensions. -/
def listProd (l : List Nat) : Nat := l.foldr (· * ·) 1

/-- Build a 1-D numpy array from a list (`np.ndarray` of rank 1). -/
def mkArr1 (v : List ℚ) : NDArray := ⟨[v.length], v⟩

/-- Build a 2-D numpy array from its rows (all rows must have equal length,
as numpy requires for a rank-2 array literal). -/
def mkArr2 (rows : List (List ℚ)) : NDArray :=
  ⟨[rows.length, (rows.headD []).length], rows.flatten⟩

/-- `len(a)` for a numpy array: the first dimension; a 0-d array raises
`TypeError` in Python. -/
def pyLen (a : NDArray) : Except PyErr Nat :=
  match a.shape with
  | [] => .error .typeError
  | n :: _ => .ok n

/-- `a.reshape(s)`: succeeds when the element count matches, otherwise
raises `ValueError`. -/
def ndReshape (a : NDArray) (s : List Nat) : Except PyErr NDArray :=
  if listProd s = a.data.length then .ok ⟨s, a.data⟩ else .error .valueError

/-- Mixed-radix decomposition of a flat row-major index w.r.t. a shape. -/
def toMulti : List Nat → Nat → List Nat
  | [], _ => []
  | _ :: ds, p => p / listProd ds :: toMulti ds (p % listProd ds)

/-- Flat row-major index of a multi-index w.r.t. a shape. -/
def toFlat : List Nat → List Nat → Nat
  | _ :: ds, i :: is => i * listProd ds + toFlat ds is
  | _, _ => 0

/-- `a.transpose()`: reverses the axes.  Element at multi-index `m` of the
result is the element at multi-index `m.reverse` of `a`. -/
def ndTranspose (a : NDArray) : NDArray :=
  ⟨a.shape.reverse,
   (List.range (listProd a.shape)).map fun p =>
     a.data.getD (toFlat a.shape ((toMulti a.shape.reverse p).reverse)) 0⟩

/-- First-axis slice `a[ch,:]` (or `a[ch]` generally), flattened. -/
def sliceRow (a : NDArray) (ch : Nat) : List ℚ :=
  ((a.data.drop (ch * listProd a.shape.tail)).take (listProd a.shape.tail))

/-- `np.max(np.abs(l))`: `ValueError` on an empty slice. -/
def absMaxList (l : List ℚ) : Except PyErr ℚ :=
  match l with
  | [] => .error .valueError
  | x :: xs => .ok (xs.foldl (fun a b => max a |b|) |x|)

/-- Python list indexing (negative indices count from the end);
out of range raises `IndexError`. -/
def pyIdx (l : List α) (i : ℤ) : Except PyErr α :=
  let j : ℤ := if i < 0 then i + l.length else i
  if h : 0 ≤ j ∧ j.toNat < l.length then .ok (l.get ⟨j.toNat, h.2⟩)
  else .error .indexError

/-- Truncation toward zero, the semantics of `ndarray.astype(int)`. -/
def ratTrunc (q : ℚ) : ℤ := if 0 ≤ q then ⌊q⌋ else -⌊-q⌋

/-- Little-endian two's-complement bytes for `struct.pack('h', v)`;
out-of-range values raise `struct.error`. -/
def int16LE (v : ℤ) : Except PyErr Buf :=
  if -32768 ≤ v ∧ v ≤ 32767 then
    let m := (v % 65536).toNat
    .ok [m % 256, m / 256]
  else .error .structError

/-- Little-endian two's-complement bytes for `struct.pack('i', v)`. -/
def int32LE (v : ℤ) : Except PyErr Buf :=
  if -(2 ^ 31) ≤ v ∧ v < 2 ^ 31 then
    let m := (v % 2 ^ 32).toNat
    .ok [m % 256, m / 256 % 256, m / 256 ^ 2 % 256, m / 256 ^ 3 % 256]
  else .error .structError

/-- Integral power of two as a rational. -/
def pow2Q (e : ℤ) : ℚ :=
  if 0 ≤ e then ((2 ^ e.toNat : ℕ) : ℚ) else mkRat 1 (2 ^ (-e).toNat)

/-- Round to nearest integer, ties to even. -/
def rdNE (q : ℚ) : ℤ :=
  let f := ⌊q⌋
  let r := q - f
  if r < 1 / 2 then f
  else if 1 / 2 < r then f + 1
  else if f % 2 = 0 then f else f + 1

/-- Linear search for the binary exponent, from `e` upward for `n` steps. -/
def f32FindEGo (q : ℚ) : Nat → ℤ → Option ℤ
  | 0, _ => none
  | k + 1, e =>
    if pow2Q e ≤ q ∧ q < pow2Q (e + 1) then some e else f32FindEGo q k (e + 1)

/-- Binary exponent search for binary32 encoding: the unique `e` with
`2^e ≤ q < 2^(e+1)`, searched over the range relevant to binary32. -/
def f32FindE (q : ℚ) : Option ℤ := f32FindEGo q 280 (-150)

/-- IEEE-754 binary32 bit pattern of a positive rational, rounding to
nearest (ties to even); values too large for the format raise
`OverflowError`, which `struct.pack` surfaces (modelled as `structError`). -/
def float32bitsPos (q : ℚ) : Except PyErr Nat :=
  if q < pow2Q (-126) then
    .ok (rdNE (q * pow2Q 149)).toNat
  else
    match f32FindE q with
    | none => .error .structError
    | some e =>
      let m := rdNE (q / pow2Q e * 2 ^ 23)
      let em : ℤ × ℤ := if m = 2 ^ 24 then (e + 1, 2 ^ 23) else (e, m)
      if em.1 > 127 then .error .structError
      else .ok ((em.1 + 127).toNat * 2 ^ 23 + (em.2.toNat - 2 ^ 23))

/-- IEEE-754 binary32 bit pattern of a rational. -/
def float32bits (q : ℚ) : Except PyErr Nat :=
  if q = 0 then .ok 0
  else if 0 < q then float32bitsPos q
  else do
    let b ← float32bitsPos (-q)
    .ok (2 ^ 31 + b)

/-- Little-endian bytes of `struct.pack('f', q)`. -/
def float32LE (q : ℚ) : Except PyErr Buf := do
  let b ← float32bits q
  .ok [b % 256, b / 256 % 256, b / 256 ^ 2 % 256, b / 256 ^ 3 % 256]

/-- The mutable `bytearray`: its size and the byte at each offset
(offsets at and beyond `size` read as 0 and are never written). -/
structure ByteBuf where
  size : Nat
  get : Nat → Nat

/-- `bytearray(n)`: `n` zero bytes. -/
def zeroBuf (n : Nat) : ByteBuf := ⟨n, fun _ => 0⟩

/-- The byte string a buffer holds, as it is written to the file. -/
def render (b : ByteBuf) : Buf := (List.range b.size).map b.get

/-- Core of `struct.pack_into`: overwrite `bytes.length` bytes of `data`
starting at `offset`; writing past the end of the buffer raises
`struct.error`. -/
def packBytes (data : ByteBuf) (offset : Nat) (bytes : Buf) :
    Except PyErr ByteBuf :=
  if offset + bytes.length ≤ data.size then
    .ok ⟨data.size, fun o =>
      if offset ≤ o ∧ o < offset + bytes.length then bytes.getD (o - offset) 0
      else data.get o⟩
  else .error .structError

/-- `struct.pack_into('h', data, offset, v)`. -/
def packH (data : ByteBuf) (offset : Nat) (v : ℤ) : Except PyErr ByteBuf := do
  packBytes data offset (← int16LE v)

/-- `struct.pack_into('i', data, offset, v)`. -/
def packI (data : ByteBuf) (offset : Nat) (v : ℤ) : Except PyErr ByteBuf := do
  packBytes data offset (← int32LE v)

/-- `struct.pack_into('f', data, offset, q)`. -/
def packF (data : ByteBuf) (offset : Nat) (q : ℚ) : Except PyErr ByteBuf := do
  packBytes data offset (← float32LE q)

/-- `struct.pack_into('<n>s', data, offset, s)`: truncate to `n` bytes or
pad with zero bytes. -/
def packS (n : Nat) (data : ByteBuf) (offset : Nat) (s : Buf) :
    Except PyErr ByteBuf :=
  packBytes data offset (s.take n ++ List.replicate (n - s.length) 0)

/-- Concatenated little-endian int16 encodings for
`struct.pack('<n>h', *vals)`. -/
def encodeHs : List ℤ → Except PyErr Buf
  | [] => .ok []
  | v :: vs => do
    let b ← int16LE v
    let rest ← encodeHs vs
    .ok (b ++ rest)

/-- `struct.pack_into('<n>h', data, offset, *vals)` for the data region. -/
def packHs (data : ByteBuf) (offset : Nat) (vals : List ℤ) :
    Except PyErr ByteBuf := do
  packBytes data offset (← encodeHs vals)

/-- A Python `for ch in range(start, start+n)` loop that folds a buffer
through a fallible body. -/
def foldRangeM (start n : Nat) (f : ByteBuf → Nat → Except PyErr ByteBuf)
    (init : ByteBuf) : Except PyErr ByteBuf :=
  match n with
  | 0 => .ok init
  | k + 1 => do foldRangeM (start + 1) k f (← f init start)

/-- A Python `for ch in range(start, start+n)` loop building a list. -/
def mapRangeM (start n : Nat) (f : Nat → Except PyErr α) : Except PyErr (List α) :=
  match n with
  | 0 => .ok []
  | k + 1 => do
    let x ← f start
    let xs ← mapRangeM (start + 1) k f
    .ok (x :: xs)

/-!
### Scale selection (source lines 71-91)

For each channel the source resets `fInstrumentScaleFactor = 1` and then,
for `i in range(10)`, divides it by 10, computes
`valueScaleI = lADCResolution / fADCRange * fInstrumentScaleFactor` and
`maxDeviationFromZero = 32767 / valueScaleI`, and breaks at the first step
where `maxDeviationFromZero >= maxVal[ch]`, appending `valueScaleI` to
`valueScale`.  If no step succeeds nothing is appended.  The loop variable
`fInstrumentScaleFactor` survives the loop with its final value.
-/

/-- One channel's scale-selection loop: `m` is the channel's `maxVal`,
the `Nat` argument the remaining iteration count, the `ℚ` argument the
current `fInstrumentScaleFactor`.  Returns the final value of
`fInstrumentScaleFactor` and the appended `valueScaleI` (if any). -/
def scanScaleGo (m : ℚ) : Nat → ℚ → ℚ × Option ℚ
  | 0, f => (f, none)
  | k + 1, f =>
    let f' := f / 10
    let s := (2 ^ 15 : ℚ) / 10 * f'
    if 32767 / s ≥ m then (f', some s) else scanScaleGo m k f'

/-- Scale selection for one channel (the `for i in range(10)` loop at
source lines 84-91, starting from `fInstrumentScaleFactor = 1`). -/
def scanScale (m : ℚ) : ℚ × Option ℚ :=
  scanScaleGo m 10 1

/-- The accumulated `valueScale` list and the final value of the shared
loop variable `fInstrumentScaleFactor` after processing all channels
(`none` when the loop body never ran, i.e. zero channels: the Python
variable would be unbound). -/
def scaleState (maxVals : List ℚ) : List ℚ × Option ℚ :=
  maxVals.foldl
    (fun acc m =>
      let r := scanScale m
      (acc.1 ++ r.2.toList, some r.1))
    ([], none)

/-- The channel's own selected `valueScaleI` (its `ChannelScale`). -/
def channelScaleOf (m : ℚ) : Option ℚ := (scanScale m).2

/-- The channel's own final `fInstrumentScaleFactor` (its instrument
factor `10^-k` when selection succeeded, `10^-10` otherwise). -/
def channelFactorOf (m : ℚ) : ℚ := (scanScale m).1

/-- `np.tile(v, n)` for a 1-D array. -/
def npTile (v : List ℚ) (n : Nat) : List ℚ := (List.replicate n v).flatten

/-- `np.multiply` on 1-D arrays with numpy broadcasting: equal lengths
multiply elementwise, a length-1 operand broadcasts, anything else raises
`ValueError`. -/
def npMultiply (a b : List ℚ) : Except PyErr (List ℚ) :=
  if a.length = b.length then .ok (List.zipWith (· * ·) a b)
  else if b.length = 1 then .ok (a.map (· * b.headD 0))
  else if a.length = 1 then .ok (b.map (a.headD 0 * ·))
  else .error .valueError


/-- The tile count `int(dataPointCount / valueScale.shape[0])` at source
line 116: Python integer division, raising `ZeroDivisionError` when the
`valueScale` list is empty. -/
def tileRepeatCount (L len : Nat) : Except PyErr Nat :=
  if len = 0 then .error .zeroDivisionError else .ok (L / len)

/-- Pad a unit byte-string with spaces (byte 32) up to 8 bytes: the
`while len < 8: append " "` loop at source lines 97-98. -/
def padUnit (u : Buf) : Buf := u ++ List.replicate (8 - u.length) 32

/-- Header fields written at source lines 47-65: file signature, version,
mode, lengths, pointers, sample interval, channel count and the 16-slot
channel map / sampling sequence loop. -/
def headerStage1 (data : ByteBuf) (dataPointCount channelCount : Nat)
    (sampleRateHz : ℚ) : Except PyErr ByteBuf := do
  let data ← packS 4 data 0 [65, 66, 70, 32]
  let data ← packF data 4 (13 / 10)
  let data ← packH data 8 5
  let data ← packI data 10 dataPointCount
  let data ← packI data 16 1
  let data ← packI data 40 4
  let data ← packH data 100 0
  let data ← (do
    if sampleRateHz = 0 then Except.error PyErr.zeroDivisionError
    else if channelCount = 0 then Except.error PyErr.zeroDivisionError
    else packF data 122 (1000000 / sampleRateHz / channelCount))
  let data ← packI data 138 dataPointCount
  let data ← packH data 120 channelCount
  foldRangeM 0 16
    (fun d ch => do
      let d ← packH d (378 + 2 * ch) (if ch < channelCount then (ch : ℤ) else -1)
      packH d (410 + 2 * ch) (if ch < channelCount then (ch : ℤ) else -1))
    data

/-- Header fields written at source lines 102-108: ADC resolution and range
and the 16-slot loop writing instrument scale factor (the shared loop
variable!), signal gain, programmable gain and unit label. -/
def headerStage2 (data : ByteBuf) (channelCount : Nat) (lastFactor : Option ℚ)
    (unitString : List Buf) : Except PyErr ByteBuf := do
  let data ← packI data 252 (2 ^ 15)
  let data ← packF data 244 10
  foldRangeM 0 16
    (fun d ch => do
      let f ← match lastFactor with
        | none => Except.error PyErr.nameError
        | some f => Except.ok f
      let d ← packF d (922 + ch * 4) f
      let d ← packF d (1050 + ch * 4) 1
      let d ← packF d (730 + ch * 4) 1
      let u ← pyIdx unitString (min (ch : ℤ) ((channelCount : ℤ) - 1))
      packS 8 d (602 + ch * 8) u)
    data

/-- The whole of `writeABF` (source lines 14-128).  The returned buffer is
the byte string written to the destination file; an error means the Python
function raises before `open(filename, 'wb')`, so no file is produced. -/
def writeABF (channelData0 : NDArray) (sampleRateHz : ℚ) (units : List Buf) :
    Except PyErr ByteBuf := do
  let channelData ←
    if channelData0.shape.length < 2 then do
      ndReshape channelData0 [1, ← pyLen channelData0]
    else Except.ok channelData0
  let channelCount := channelData.shape.getD 0 0
  let channelPointCount := channelData.shape.getD 1 0
  let dataPointCount := channelPointCount * channelCount
  let dataBlocks := dataPointCount * 2 / 512 + 1
  let data : ByteBuf := zeroBuf ((dataBlocks + 4) * 512)
  let data ← headerStage1 data dataPointCount channelCount sampleRateHz
  let maxVal ← mapRangeM 0 channelCount fun ch => absMaxList (sliceRow channelData ch)
  let st := scaleState maxVal
  let unitString ← mapRangeM 0 channelCount fun ch => do
    Except.ok (padUnit (← pyIdx units (ch : ℤ)))
  let data ← headerStage2 data channelCount st.2 unitString
  let flat ← ndReshape (ndTranspose channelData) [1, dataPointCount]
  let chdata := sliceRow flat 0
  let n ← tileRepeatCount dataPointCount st.1.length
  let scaled ← npMultiply chdata (npTile st.1 n)
  packHs data 2048 (scaled.map ratTrunc)

/-- The default `units` argument `['mV']` as byte strings. -/
def defaultUnits : List Buf := [[109, 86]]

/-!
### Specification-side definitions used to state the claims
-/

/-- Pure form of `np.max(np.abs(l))` (meaningful for nonempty `l`). -/
def absMax : List ℚ → ℚ
  | [] => 0
  | x :: xs => xs.foldl (fun a b => max a |b|) |x|

/-- The instrument scale factor after `k` iterations of
`fInstrumentScaleFactor /= 10` starting from 1, as the source computes it. -/
def instFactorAt (k : Nat) : ℚ := (List.range k).foldl (fun a _ => a / 10) 1

/-- The `maxDeviationFromZero` the source computes at attenuation step `k`:
`32767 / (lADCResolution / fADCRange * 10^-k)`. -/
def maxDeviationAt (k : Nat) : ℚ := 32767 / ((2 ^ 15 : ℚ) / 10 * instFactorAt k)

/-- Decode a little-endian signed 16-bit integer from two bytes. -/
def decodeInt16LE (b0 b1 : Nat) : ℤ :=
  let u := b0 + 256 * b1
  if u < 32768 then (u : ℤ) else (u : ℤ) - 65536

/-- `d'` agrees with `d` in size and at every offset outside `P`. -/
def Preserves (P : Nat → Prop) (d d' : ByteBuf) : Prop :=
  d'.size = d.size ∧ ∀ o, ¬ P o → d'.get o = d.get o

/-- The byte offsets `writeABF` explicitly assigns, for a data region of
`L` 16-bit samples: the header fields of the fixed layout (including all
16 per-channel slots of each per-channel field) and the sample bytes. -/
def assignedByte (L : Nat) (o : Nat) : Prop :=
  o < 14 ∨ (16 ≤ o ∧ o < 20) ∨ (40 ≤ o ∧ o < 44) ∨ (100 ≤ o ∧ o < 102) ∨
  (120 ≤ o ∧ o < 126) ∨ (138 ≤ o ∧ o < 142) ∨ (244 ≤ o ∧ o < 248) ∨
  (252 ≤ o ∧ o < 256) ∨ (378 ≤ o ∧ o < 442) ∨ (602 ≤ o ∧ o < 794) ∨
  (922 ≤ o ∧ o < 986) ∨ (1050 ≤ o ∧ o < 1114) ∨
  (2048 ≤ o ∧ o < 2048 + 2 * L)

/-- A valid multi-channel input in the sense of the specification
(channel count in 1..16, equal-length nonempty channels, enough unit
labels, a genuine sampling rate), together with the side conditions under
which the encoder can represent the data at all: the total sample count
fits a 32-bit header field and every channel admits an attenuation step
(its scale selection succeeds). -/
structure ValidInput (rows : List (List ℚ)) (N : Nat) (units : List Buf)
    (rate : ℚ) : Prop where
  hC : 1 ≤ rows.length
  hC16 : rows.length ≤ 16
  hrows : ∀ row ∈ rows, row.length = N
  hN : 1 ≤ N
  hunits : rows.length ≤ units.length
  hrate : 1 ≤ rate
  hsize : 2 * (rows.length * N) < 2 ^ 31
  hscale : ∀ row ∈ rows, (channelScaleOf (absMax row)).isSome

/-- Byte offsets written by `headerStage1` (source lines 47-65). -/
def hdr1Set (o : Nat) : Prop :=
  o < 14 ∨ (16 ≤ o ∧ o < 20) ∨ (40 ≤ o ∧ o < 44) ∨ (100 ≤ o ∧ o < 102) ∨
  (120 ≤ o ∧ o < 126) ∨ (138 ≤ o ∧ o < 142) ∨ (378 ≤ o ∧ o < 442)

/-- Byte offsets written by `headerStage2` (source lines 102-108). -/
def hdr2Set (o : Nat) : Prop :=
  (244 ≤ o ∧ o < 248) ∨ (252 ≤ o ∧ o < 256) ∨ (602 ≤ o ∧ o < 794) ∨
  (922 ≤ o ∧ o < 986) ∨ (1050 ≤ o ∧ o < 1114)

/-!
## Lemmas
-/

/-- Inversion for a successful `Except` bind. -/
theorem bindInv {α β : Type} {x : Except PyErr α} {f : α → Except PyErr β}
    {b : β} (h : (x >>= f) = .ok b) : ∃ a, x = .ok a ∧ f a = .ok b := by
  cases x with
  | error e => simp [Bind.bind, Except.bind] at h
  | ok a => exact ⟨a, rfl, by simpa [Bind.bind, Except.bind] using h⟩

theorem bind_ok_eq {α β : Type} {a : α} (f : α → Except PyErr β) :
    ((Except.ok a : Except PyErr α) >>= f) = f a := rfl

theorem bind_err_eq {α β : Type} {e : PyErr} (f : α → Except PyErr β) :
    ((Except.error e : Except PyErr α) >>= f) = .error e := rfl

theorem int16LE_ok {v : ℤ} (h1 : -32768 ≤ v) (h2 : v ≤ 32767) :
    int16LE v = .ok [((v % 65536).toNat) % 256, ((v % 65536).toNat) / 256] := by
  simp [int16LE, h1, h2]

theorem int16LE_length {v : ℤ} {b : Buf} (h : int16LE v = .ok b) :
    b.length = 2 := by
  by_cases hr : -32768 ≤ v ∧ v ≤ 32767
  · rw [int16LE, if_pos hr] at h
    cases h; rfl
  · rw [int16LE, if_neg hr] at h
    cases h

theorem int32LE_ok {v : ℤ} (h1 : -(2 ^ 31) ≤ v) (h2 : v < 2 ^ 31) :
    (int32LE v).isOk := by
  rw [int32LE, if_pos ⟨h1, h2⟩]
  rfl

theorem int32LE_length {v : ℤ} {b : Buf} (h : int32LE v = .ok b) :
    b.length = 4 := by
  by_cases hr : -(2 ^ 31) ≤ v ∧ v < 2 ^ 31
  · rw [int32LE, if_pos hr] at h
    cases h; rfl
  · rw [int32LE, if_neg hr] at h
    cases h

theorem float32LE_length {q : ℚ} {b : Buf} (h : float32LE q = .ok b) :
    b.length = 4 := by
  rw [float32LE] at h
  obtain ⟨n, -, h2⟩ := bindInv h
  cases h2; rfl

theorem packBytes_ok {d : ByteBuf} {offset : Nat} {b : Buf}
    (h : offset + b.length ≤ d.size) :
    packBytes d offset b =
      .ok ⟨d.size, fun o =>
        if offset ≤ o ∧ o < offset + b.length then b.getD (o - offset) 0
        else d.get o⟩ := by
  simp [packBytes, h]

theorem packBytesInv {d d' : ByteBuf} {offset : Nat} {b : Buf}
    (h : packBytes d offset b = .ok d') :
    offset + b.length ≤ d.size ∧ d'.size = d.size ∧
      (∀ o, ¬ (offset ≤ o ∧ o < offset + b.length) → d'.get o = d.get o) ∧
      (∀ o, offset ≤ o → o < offset + b.length → d'.get o = b.getD (o - offset) 0) := by
  by_cases hb : offset + b.length ≤ d.size
  · rw [packBytes, if_pos hb] at h
    cases h
    refine ⟨hb, rfl, fun o ho => ?_, fun o h1 h2 => ?_⟩
    · exact if_neg ho
    · exact if_pos ⟨h1, h2⟩
  · rw [packBytes, if_neg hb] at h
    cases h

theorem preserves_refl {P : Nat → Prop} {d : ByteBuf} : Preserves P d d :=
  ⟨rfl, fun _ _ => rfl⟩

theorem preserves_trans {P : Nat → Prop} {d d₁ d₂ : ByteBuf}
    (h1 : Preserves P d d₁) (h2 : Preserves P d₁ d₂) : Preserves P d d₂ :=
  ⟨h2.1.trans h1.1, fun o ho => (h2.2 o ho).trans (h1.2 o ho)⟩

theorem preserves_mono {P Q : Nat → Prop} {d d' : ByteBuf}
    (hpq : ∀ o, P o → Q o) (h : Preserves P d d') : Preserves Q d d' :=
  ⟨h.1, fun o ho => h.2 o fun hp => ho (hpq o hp)⟩

theorem packBytes_okPreserves {d : ByteBuf} {z : Nat} {b : Buf}
    (hs : z + b.length ≤ d.size) :
    ∃ d', packBytes d z b = .ok d' ∧
      Preserves (fun o => z ≤ o ∧ o < z + b.length) d d' := by
  refine ⟨_, packBytes_ok hs, ?_⟩
  obtain ⟨-, hsz, hout, -⟩ := packBytesInv (packBytes_ok hs)
  exact ⟨hsz, hout⟩

theorem packH_ok {d : ByteBuf} {z : Nat} {v : ℤ}
    (hs : z + 2 ≤ d.size) (h1 : -32768 ≤ v) (h2 : v ≤ 32767) :
    ∃ d', packH d z v = .ok d' ∧
      Preserves (fun o => z ≤ o ∧ o < z + 2) d d' := by
  rw [packH, int16LE_ok h1 h2, bind_ok_eq]
  exact packBytes_okPreserves hs

theorem int32LE_okEx {v : ℤ} (h1 : -(2 ^ 31) ≤ v) (h2 : v < 2 ^ 31) :
    ∃ b, int32LE v = .ok b := by
  rw [int32LE, if_pos ⟨h1, h2⟩]
  exact ⟨_, rfl⟩

theorem packI_ok {d : ByteBuf} {z : Nat} {v : ℤ}
    (hs : z + 4 ≤ d.size) (h1 : -(2 ^ 31) ≤ v) (h2 : v < 2 ^ 31) :
    ∃ d', packI d z v = .ok d' ∧
      Preserves (fun o => z ≤ o ∧ o < z + 4) d d' := by
  obtain ⟨b, hb⟩ := int32LE_okEx h1 h2
  have hlen := int32LE_length hb
  rw [packI, hb, bind_ok_eq]
  rw [show z + 4 = z + b.length by rw [hlen]] at hs
  obtain ⟨d', hd', hp⟩ := packBytes_okPreserves hs
  exact ⟨d', hd', by rwa [hlen] at hp⟩

theorem packF_okOf {d : ByteBuf} {z : Nat} {q : ℚ} {b : Buf}
    (hs : z + 4 ≤ d.size) (hq : float32LE q = .ok b) :
    ∃ d', packF d z q = .ok d' ∧
      Preserves (fun o => z ≤ o ∧ o < z + 4) d d' := by
  have hlen := float32LE_length hq
  rw [packF, hq, bind_ok_eq]
  rw [show z + 4 = z + b.length by rw [hlen]] at hs
  obtain ⟨d', hd', hp⟩ := packBytes_okPreserves hs
  exact ⟨d', hd', by rwa [hlen] at hp⟩

theorem packSbytes_length (n : Nat) (s : Buf) :
    (s.take n ++ List.replicate (n - s.length) 0).length = n := by
  simp [List.length_take]
  omega

theorem packS_ok {d : ByteBuf} {n z : Nat} {s : Buf}
    (hs : z + n ≤ d.size) :
    ∃ d', packS n d z s = .ok d' ∧
      Preserves (fun o => z ≤ o ∧ o < z + n) d d' := by
  rw [packS]
  rw [show z + n = z + (s.take n ++ List.replicate (n - s.length) 0).length by
    rw [packSbytes_length]] at hs
  obtain ⟨d', hd', hp⟩ := packBytes_okPreserves hs
  exact ⟨d', hd', by rwa [packSbytes_length] at hp⟩

theorem pow2Q_eq (e : ℤ) : pow2Q e = (2 : ℚ) ^ e := by
  rw [pow2Q]
  split
  · next h =>
    rw [show ((2 ^ e.toNat : ℕ) : ℚ) = (2 : ℚ) ^ e.toNat by push_cast; ring]
    rw [← zpow_natCast, Int.toNat_of_nonneg h]
  · next h =>
    rw [Rat.mkRat_eq_divInt, Rat.divInt_eq_div]
    push_cast
    rw [← zpow_natCast, Int.toNat_of_nonneg (by omega : 0 ≤ -e)]
    rw [one_div, ← zpow_neg, neg_neg]

theorem pow2Q_pos (e : ℤ) : 0 < pow2Q e := by
  rw [pow2Q_eq]
  exact zpow_pos (by norm_num) e

theorem rdNE_bounds (q : ℚ) : ⌊q⌋ ≤ rdNE q ∧ rdNE q ≤ ⌊q⌋ + 1 := by
  rw [rdNE]
  split
  · omega
  split
  · omega
  split
  · omega
  · omega

theorem f32FindEGo_eq_some {q : ℚ} {e : ℤ}
    (h1 : pow2Q e ≤ q) (h2 : q < pow2Q (e + 1)) :
    ∀ (n : Nat) (e0 : ℤ), e0 ≤ e → e < e0 + n → f32FindEGo q n e0 = some e := by
  intro n
  induction n with
  | zero => intro e0 hlo hhi; omega
  | succ k ih =>
    intro e0 hlo hhi
    rw [f32FindEGo]
    rcases eq_or_lt_of_le hlo with heq | hlt
    · subst heq
      rw [if_pos ⟨h1, h2⟩]
    · rw [if_neg, ih (e0 + 1) (by omega) (by omega)]
      rintro ⟨-, hq2⟩
      have : pow2Q (e0 + 1) ≤ pow2Q e := by
        rw [pow2Q_eq, pow2Q_eq]
        exact zpow_le_zpow_right₀ (by norm_num) (by omega)
      exact absurd hq2 (not_lt.mpr (le_trans this h1))

theorem float32bitsPos_ok {q : ℚ} (h0 : 0 < q) (hq : q < pow2Q 127) :
    ∃ n, float32bitsPos q = .ok n := by
  rw [float32bitsPos]
  split
  · exact ⟨_, rfl⟩
  · next hsub =>
    push_neg at hsub
    set e : ℤ := Int.log 2 q with he
    have hle : pow2Q e ≤ q := by
      rw [pow2Q_eq]
      simpa using Int.zpow_log_le_self (b := 2) (by norm_num) h0
    have hlt : q < pow2Q (e + 1) := by
      rw [pow2Q_eq]
      simpa using Int.lt_zpow_succ_log_self (b := 2) (by norm_num) q
    have helo : -126 ≤ e := by
      by_contra hcon
      push_neg at hcon
      have : pow2Q (e + 1) ≤ pow2Q (-126) := by
        rw [pow2Q_eq, pow2Q_eq]
        exact zpow_le_zpow_right₀ (by norm_num) (by omega)
      exact absurd (lt_of_lt_of_le hlt this) (not_lt.mpr hsub)
    have hehi : e ≤ 126 := by
      by_contra hcon
      push_neg at hcon
      have : pow2Q 127 ≤ pow2Q e := by
        rw [pow2Q_eq, pow2Q_eq]
        exact zpow_le_zpow_right₀ (by norm_num) (by omega)
      exact absurd (lt_of_le_of_lt (le_trans this hle) hq) (lt_irrefl _)
    have hdiv : q / pow2Q e < 2 := by
      rw [div_lt_iff₀ (pow2Q_pos e)]
      have h2e : pow2Q (e + 1) = 2 * pow2Q e := by
        rw [pow2Q_eq, pow2Q_eq, zpow_add_one₀ (by norm_num : (2 : ℚ) ≠ 0)]
        ring
      calc q < pow2Q (e + 1) := hlt
        _ = 2 * pow2Q e := h2e
    have hx24 : q / pow2Q e * 2 ^ 23 < 2 ^ 24 := by
      have := mul_lt_mul_of_pos_right hdiv (show (0 : ℚ) < 2 ^ 23 by norm_num)
      linarith
    have hfl2 : ⌊q / pow2Q e * 2 ^ 23⌋ < (2 : ℤ) ^ 24 := by
      apply Int.floor_lt.mpr
      push_cast
      exact hx24
    have hm : rdNE (q / pow2Q e * 2 ^ 23) ≤ 2 ^ 24 :=
      le_trans (rdNE_bounds _).2 (by omega)
    rw [show f32FindE q = some e from
      f32FindEGo_eq_some hle hlt 280 (-150) (by omega) (by omega)]
    dsimp only
    by_cases hm24 : rdNE (q / pow2Q e * 2 ^ 23) = 2 ^ 24
    · rw [if_pos hm24, if_neg (by omega)]
      exact ⟨_, rfl⟩
    · rw [if_neg hm24, if_neg (by omega)]
      exact ⟨_, rfl⟩

theorem float32LE_okEx {q : ℚ} (h0 : 0 < q) (hq : q < pow2Q 127) :
    ∃ b, float32LE q = .ok b := by
  obtain ⟨n, hn⟩ := float32bitsPos_ok h0 hq
  rw [float32LE, float32bits, if_neg (ne_of_gt h0), if_pos h0, hn, bind_ok_eq]
  exact ⟨_, rfl⟩

theorem packF_ok {d : ByteBuf} {z : Nat} {q : ℚ}
    (hs : z + 4 ≤ d.size) (h0 : 0 < q) (hq : q < pow2Q 127) :
    ∃ d', packF d z q = .ok d' ∧
      Preserves (fun o => z ≤ o ∧ o < z + 4) d d' := by
  obtain ⟨b, hb⟩ := float32LE_okEx h0 hq
  exact packF_okOf hs hb

theorem foldRangeM_ok {P : Nat → Prop} {f : ByteBuf → Nat → Except PyErr ByteBuf} :
    ∀ {n s : Nat} {a : ByteBuf},
      (∀ d ch, s ≤ ch → ch < s + n → d.size = a.size →
        ∃ d', f d ch = .ok d' ∧ Preserves P d d') →
      ∃ out, foldRangeM s n f a = .ok out ∧ Preserves P a out := by
  intro n
  induction n with
  | zero =>
    intro start init hf
    exact ⟨init, rfl, preserves_refl⟩
  | succ k ih =>
    intro start init hf
    obtain ⟨d1, hd1, hp1⟩ := hf init start le_rfl (by omega) rfl
    have hstep : foldRangeM start (k + 1) f init =
        f init start >>= fun d => foldRangeM (start + 1) k f d := rfl
    rw [hstep, hd1, bind_ok_eq]
    obtain ⟨out, hout, hp2⟩ :=
      ih (s := start + 1) (a := d1)
        (fun d ch h1 h2 hsz => hf d ch (by omega) (by omega) (hsz.trans hp1.1))
    exact ⟨out, hout, preserves_trans hp1 hp2⟩

theorem mapRangeM_ok {α : Type} {f : Nat → Except PyErr α} (d₀ : α) :
    ∀ {n s : Nat},
      (∀ j, j < n → ∃ y, f (s + j) = .ok y) →
      ∃ ys : List α, mapRangeM s n f = .ok ys ∧ ys.length = n ∧
        ∀ j, j < n → f (s + j) = .ok (ys.getD j d₀) := by
  intro n
  induction n with
  | zero =>
    intro start _
    exact ⟨[], rfl, rfl, fun j hj => absurd hj (Nat.not_lt_zero j)⟩
  | succ k ih =>
    intro start hf
    obtain ⟨y0, hy0⟩ := hf 0 (Nat.succ_pos k)
    rw [Nat.add_zero] at hy0
    obtain ⟨ys, hys, hlen, hidx⟩ :=
      ih (s := start + 1) (fun j hj => by
        have := hf (j + 1) (by omega)
        rwa [show start + (j + 1) = start + 1 + j by omega] at this)
    have hstep : mapRangeM start (k + 1) f =
        f start >>= fun x => (mapRangeM (start + 1) k f >>= fun xs =>
          .ok (x :: xs)) := rfl
    rw [hstep, hy0, bind_ok_eq, hys, bind_ok_eq]
    refine ⟨y0 :: ys, rfl, by simp [hlen], fun j hj => ?_⟩
    cases j with
    | zero => simpa using hy0
    | succ i =>
      have := hidx i (by omega)
      rwa [show start + 1 + i = start + (i + 1) by omega] at this

theorem mapRangeM_err {α : Type} {f : Nat → Except PyErr α} {e : PyErr} :
    ∀ {n s k : Nat}, k < n →
      (∀ j, j < k → ∃ y, f (s + j) = .ok y) →
      f (s + k) = .error e →
      mapRangeM s n f = .error e := by
  intro n
  induction n with
  | zero =>
    intro start k hk _ _
    omega
  | succ m ih =>
    intro start k hk hok herr
    have hstep : mapRangeM start (m + 1) f =
        f start >>= fun x => (mapRangeM (start + 1) m f >>= fun xs =>
          .ok (x :: xs)) := rfl
    cases k with
    | zero =>
      rw [Nat.add_zero] at herr
      rw [hstep, herr, bind_err_eq]
    | succ j =>
      obtain ⟨y0, hy0⟩ := hok 0 (Nat.succ_pos j)
      rw [Nat.add_zero] at hy0
      rw [hstep, hy0, bind_ok_eq]
      have htail : mapRangeM (start + 1) m f = .error e := by
        apply ih (k := j) (by omega)
        · intro i hi
          have := hok (i + 1) (by omega)
          rwa [show start + (i + 1) = start + 1 + i by omega] at this
        · rwa [show start + 1 + j = start + (j + 1) by omega]
      rw [htail, bind_err_eq]

theorem scanScaleGo_factor {m : ℚ} :
    ∀ (n : Nat) {f : ℚ}, 0 < f →
      0 < (scanScaleGo m n f).1 ∧ (scanScaleGo m n f).1 ≤ f := by
  intro n
  induction n with
  | zero =>
    intro f hf
    exact ⟨hf, le_rfl⟩
  | succ k ih =>
    intro f hf
    have hf' : 0 < f / 10 := by positivity
    rw [scanScaleGo]
    split
    · exact ⟨hf', by linarith⟩
    · obtain ⟨h1, h2⟩ := ih hf'
      exact ⟨h1, by linarith⟩

theorem scanScaleGo_some {m : ℚ} :
    ∀ (n : Nat) {f s : ℚ}, 0 < f → (scanScaleGo m n f).2 = some s →
      0 < s ∧ m * s ≤ 32767 := by
  intro n
  induction n with
  | zero =>
    intro f s _ h
    cases h
  | succ k ih =>
    intro f s hf h
    have hf' : 0 < f / 10 := by positivity
    have hs' : 0 < (2 ^ 15 : ℚ) / 10 * (f / 10) := by positivity
    rw [scanScaleGo] at h
    split at h
    · next hacc =>
      cases h
      refine ⟨hs', ?_⟩
      rw [ge_iff_le, le_div_iff₀ hs'] at hacc
      exact hacc
    · exact ih hf' h

theorem channelScaleOf_pos {m s : ℚ} (h : channelScaleOf m = some s) :
    0 < s ∧ m * s ≤ 32767 :=
  scanScaleGo_some 10 one_pos h

theorem channelFactorOf_pos (m : ℚ) :
    0 < channelFactorOf m ∧ channelFactorOf m ≤ 1 :=
  scanScaleGo_factor 10 one_pos

theorem absMax_mem {x : ℚ} : ∀ {l : List ℚ}, x ∈ l → |x| ≤ absMax l := by
  have haux : ∀ (l : List ℚ) (a : ℚ),
      a ≤ l.foldl (fun acc b => max acc |b|) a ∧
      ∀ y ∈ l, |y| ≤ l.foldl (fun acc b => max acc |b|) a := by
    intro l
    induction l with
    | nil => exact fun a => ⟨le_rfl, fun y hy => absurd hy (List.not_mem_nil y)⟩
    | cons b bs ih =>
      intro a
      refine ⟨?_, fun y hy => ?_⟩
      · exact le_trans (le_max_left a |b|) (ih (max a |b|)).1
      · rcases List.mem_cons.mp hy with h | h
        · subst h
          exact le_trans (le_max_right a |y|) (ih (max a |y|)).1
        · exact (ih (max a |b|)).2 y h
  intro l hx
  cases l with
  | nil => exact absurd hx (List.not_mem_nil x)
  | cons r rs =>
    rcases List.mem_cons.mp hx with h | h
    · subst h
      exact (haux rs |x|).1
    · exact (haux rs |r|).2 x h

theorem absMax_nonneg : ∀ (l : List ℚ), 0 ≤ absMax l := by
  intro l
  cases l with
  | nil => exact le_rfl
  | cons r rs =>
    have : |r| ≤ absMax (r :: rs) := absMax_mem (List.mem_cons_self r rs)
    exact le_trans (abs_nonneg r) this

theorem absMaxList_eq {l : List ℚ} (h : l ≠ []) : absMaxList l = .ok (absMax l) := by
  cases l with
  | nil => exact absurd rfl h
  | cons x xs => rfl

theorem ratTrunc_abs_le (q : ℚ) : |(ratTrunc q : ℚ)| ≤ |q| := by
  rw [ratTrunc]
  split
  · next h =>
    rw [abs_of_nonneg h, abs_of_nonneg]
    · exact Int.floor_le q
    · exact_mod_cast Int.floor_nonneg.mpr h
  · next h =>
    push_neg at h
    push_cast
    rw [abs_of_neg h, abs_of_nonpos]
    · simpa using Int.floor_le (-q)
    · simp only [neg_nonpos]
      exact_mod_cast Int.floor_nonneg.mpr (by linarith)

theorem ratTrunc_sub_le (q : ℚ) : |q - (ratTrunc q : ℚ)| ≤ 1 := by
  rw [ratTrunc]
  split
  · next h =>
    rw [abs_of_nonneg (by linarith [Int.floor_le q])]
    linarith [Int.lt_floor_add_one q]
  · next h =>
    push_cast
    rw [abs_of_nonpos (by linarith [Int.floor_le (-q)])]
    linarith [Int.lt_floor_add_one (-q)]

theorem quantBound {x m s : ℚ} (hx : |x| ≤ m) (hs : 0 < s)
    (hms : m * s ≤ 32767) : -32767 ≤ ratTrunc (x * s) ∧ ratTrunc (x * s) ≤ 32767 := by
  have habs : |x * s| ≤ 32767 := by
    rw [abs_mul, abs_of_pos hs]
    have h1 : |x| * s ≤ m * s := mul_le_mul_of_nonneg_right hx (le_of_lt hs)
    linarith
  have h2 : |(ratTrunc (x * s) : ℚ)| ≤ 32767 := le_trans (ratTrunc_abs_le _) habs
  rw [abs_le] at h2
  constructor
  · exact_mod_cast h2.1
  · exact_mod_cast h2.2

theorem scaleState_shift :
    ∀ (ms : List ℚ) (l : List ℚ) (o : Option ℚ),
      ms.foldl
        (fun acc m =>
          ((acc.1 ++ ((scanScale m).2).toList : List ℚ),
            (some (scanScale m).1 : Option ℚ)))
        (l, o) =
      (l ++ (scaleState ms).1, if ms.isEmpty then o else (scaleState ms).2) := by
  intro ms
  induction ms with
  | nil =>
    intro l o
    simp [scaleState]
  | cons m ms ih =>
    intro l o
    rw [List.foldl_cons]
    rw [ih (l ++ ((scanScale m).2).toList) (some (scanScale m).1)]
    have hrhs : scaleState (m :: ms) =
        (((scanScale m).2).toList ++ (scaleState ms).1,
          if ms.isEmpty then some (scanScale m).1 else (scaleState ms).2) := by
      rw [scaleState, List.foldl_cons]
      rw [ih (([] : List ℚ) ++ ((scanScale m).2).toList) (some (scanScale m).1)]
      simp
    rw [hrhs]
    simp [List.append_assoc]

theorem scaleState_cons (m : ℚ) (ms : List ℚ) :
    scaleState (m :: ms) =
      (((scanScale m).2).toList ++ (scaleState ms).1,
        if ms.isEmpty then some (scanScale m).1 else (scaleState ms).2) := by
  rw [scaleState, List.foldl_cons]
  rw [scaleState_shift ms (([] : List ℚ) ++ ((scanScale m).2).toList)
    (some (scanScale m).1)]
  simp

theorem scaleState_all_some {ms : List ℚ}
    (h : ∀ m ∈ ms, (channelScaleOf m).isSome) :
    (scaleState ms).1 = ms.map fun m => (channelScaleOf m).getD 0 := by
  induction ms with
  | nil => rfl
  | cons m ms ih =>
    rw [scaleState_cons, List.map_cons]
    obtain ⟨s, hs⟩ := Option.isSome_iff_exists.mp (h m (List.mem_cons_self m ms))
    rw [ih fun x hx => h x (List.mem_cons_of_mem m hx)]
    have h1 : ((scanScale m).2).toList = [s] := by
      rw [show (scanScale m).2 = some s from hs]
      rfl
    have h2 : (channelScaleOf m).getD 0 = s := by
      rw [hs]
      rfl
    rw [h1, h2]
    rfl

theorem scaleState_lastFactor {ms : List ℚ} (h : ms ≠ []) :
    ∃ fac, (scaleState ms).2 = some fac ∧ 0 < fac ∧ fac ≤ 1 := by
  induction ms with
  | nil => exact absurd rfl h
  | cons m ms ih =>
    rw [scaleState_cons]
    by_cases hms : ms.isEmpty
    · refine ⟨(scanScale m).1, by simp [hms], ?_⟩
      exact channelFactorOf_pos m
    · obtain ⟨fac, hfac, hf1, hf2⟩ := ih (by simpa [List.isEmpty_iff] using hms)
      exact ⟨fac, by simp [hms, hfac], hf1, hf2⟩

theorem getD_map_range {α : Type} {f : Nat → α} {n p : Nat} (h : p < n) (d : α) :
    ((List.range n).map f).getD p d = f p := by
  rw [List.getD_eq_getElem?_getD, List.getElem?_map, List.getElem?_range h]
  rfl

theorem getD_drop {α : Type} (l : List α) (n m : Nat) (d : α) :
    (l.drop n).getD m d = l.getD (n + m) d := by
  rw [List.getD_eq_getElem?_getD, List.getD_eq_getElem?_getD, List.getElem?_drop]

theorem getD_take_lt {α : Type} {l : List α} {n m : Nat} (h : m < n) (d : α) :
    (l.take n).getD m d = l.getD m d := by
  rw [List.getD_eq_getElem?_getD, List.getD_eq_getElem?_getD, List.getElem?_take,
    if_pos h]

theorem getD_append_left {α : Type} {l₁ l₂ : List α} {n : Nat}
    (h : n < l₁.length) (d : α) : (l₁ ++ l₂).getD n d = l₁.getD n d := by
  rw [List.getD_eq_getElem?_getD, List.getD_eq_getElem?_getD,
    List.getElem?_append_left h]

theorem getD_append_right {α : Type} {l₁ l₂ : List α} {n : Nat}
    (h : l₁.length ≤ n) (d : α) :
    (l₁ ++ l₂).getD n d = l₂.getD (n - l₁.length) d := by
  rw [List.getD_eq_getElem?_getD, List.getD_eq_getElem?_getD,
    List.getElem?_append_right h]

theorem getD_zipWith_mul {a b : List ℚ} {p : Nat} (ha : p < a.length)
    (hb : p < b.length) :
    (List.zipWith (· * ·) a b).getD p 0 = a.getD p 0 * b.getD p 0 := by
  have hlen : p < (List.zipWith (· * ·) a b).length := by
    rw [List.length_zipWith]
    omega
  rw [List.getD_eq_getElem?_getD, List.getElem?_eq_getElem hlen]
  rw [List.getD_eq_getElem?_getD, List.getElem?_eq_getElem ha]
  rw [List.getD_eq_getElem?_getD, List.getElem?_eq_getElem hb]
  simp [List.getElem_zipWith]

theorem flatten_rows_getD {N : Nat} (d : List ℚ) :
    ∀ (rows : List (List ℚ)) (ch i : Nat),
      (∀ row ∈ rows, row.length = N) → ch < rows.length → i < N →
      rows.flatten.getD (ch * N + i) 0 = (rows.getD ch d).getD i 0 := by
  intro rows
  induction rows with
  | nil =>
    intro ch i _ hch _
    exact absurd hch (Nat.not_lt_zero ch)
  | cons r rs ih =>
    intro ch i hlen hch hi
    have hr : r.length = N := hlen r (List.mem_cons_self r rs)
    have hch2 : ch < rs.length + 1 := by simpa using hch
    rw [List.flatten_cons]
    cases ch with
    | zero =>
      rw [Nat.zero_mul, Nat.zero_add]
      rw [getD_append_left (by omega)]
      rfl
    | succ c =>
      rw [getD_append_right (by
        rw [hr]
        have : N ≤ (c + 1) * N := Nat.le_mul_of_pos_left N (Nat.succ_pos c)
        omega)]
      rw [hr]
      rw [show (c + 1) * N + i - N = c * N + i by
        have : (c + 1) * N = c * N + N := by ring
        omega]
      rw [ih c i (fun row hrow => hlen row (List.mem_cons_of_mem r hrow))
        (by omega : c < rs.length) hi]
      rfl

theorem npTile_getD {vs : List ℚ} :
    ∀ (n : Nat) (p : Nat), p < n * vs.length →
      (npTile vs n).getD p 0 = vs.getD (p % vs.length) 0 := by
  intro n
  induction n with
  | zero =>
    intro p hp
    omega
  | succ k ih =>
    intro p hp
    rw [npTile, List.replicate_succ, List.flatten_cons]
    by_cases hc : p < vs.length
    · rw [getD_append_left hc, Nat.mod_eq_of_lt hc]
    · push_neg at hc
      rw [getD_append_right hc]
      have h1 : p - vs.length < k * vs.length := by
        have : (k + 1) * vs.length = k * vs.length + vs.length := by ring
        omega
      have hih := ih (p - vs.length) h1
      rw [npTile] at hih
      rw [hih]
      congr 1
      conv_rhs => rw [show p = (p - vs.length) + vs.length by omega]
      rw [Nat.add_mod_right]

theorem npTile_length (vs : List ℚ) (n : Nat) :
    (npTile vs n).length = n * vs.length := by
  rw [npTile]
  induction n with
  | zero => simp
  | succ k ih =>
    rw [List.replicate_succ, List.flatten_cons, List.length_append, ih]
    ring

theorem flatten_drop_take {N : Nat} :
    ∀ (rows : List (List ℚ)) (ch : Nat),
      (∀ row ∈ rows, row.length = N) → ch < rows.length →
      (rows.flatten.drop (ch * N)).take N = rows.getD ch [] := by
  intro rows
  induction rows with
  | nil =>
    intro ch _ hch
    simp at hch
  | cons r rs ih =>
    intro ch hlen hch
    have hr : r.length = N := hlen r (List.mem_cons_self r rs)
    have hch2 : ch < rs.length + 1 := by simpa using hch
    rw [List.flatten_cons]
    cases ch with
    | zero =>
      rw [Nat.zero_mul, List.drop_zero, List.take_left' hr]
      rfl
    | succ c =>
      rw [show (c + 1) * N = r.length + c * N by rw [hr]; ring]
      rw [List.drop_append]
      rw [ih c (fun row hrow => hlen row (List.mem_cons_of_mem r hrow))
        (by omega : c < rs.length)]
      rfl

theorem sliceRow_mkArr2 {rows : List (List ℚ)} {N : Nat} {ch : Nat}
    (hrows : ∀ row ∈ rows, row.length = N) (hch : ch < rows.length) :
    sliceRow (mkArr2 rows) ch = rows.getD ch [] := by
  cases rows with
  | nil => simp at hch
  | cons r rs =>
    have hr : r.length = N := hrows r (List.mem_cons_self r rs)
    rw [sliceRow]
    dsimp only [mkArr2, List.tail]
    rw [show (r :: rs).headD [] = r from rfl]
    rw [show listProd [r.length] = N by simp [listProd, hr]]
    exact flatten_drop_take (r :: rs) ch hrows hch

theorem ndTranspose_getD {C N : Nat} {dat : List ℚ} {i ch : Nat}
    (hch : ch < C) (hi : i < N) :
    (ndTranspose ⟨[C, N], dat⟩).data.getD (i * C + ch) 0 =
      dat.getD (ch * N + i) 0 := by
  have hC : 0 < C := by omega
  have hp : i * C + ch < listProd [C, N] := by
    have h1 : i * C + ch < (i + 1) * C := by
      have : (i + 1) * C = i * C + C := by ring
      omega
    have h2 : (i + 1) * C ≤ N * C := Nat.mul_le_mul_right C (by omega)
    have h3 : listProd [C, N] = C * N := by simp [listProd]
    rw [h3]
    have : N * C = C * N := Nat.mul_comm N C
    omega
  rw [ndTranspose]
  rw [getD_map_range hp]
  congr 1
  have hmod : (i * C + ch) % C = ch := by
    rw [Nat.add_comm, Nat.add_mul_mod_self_right, Nat.mod_eq_of_lt hch]
  have hdiv : (i * C + ch) / C = i := by
    rw [Nat.add_comm, Nat.add_mul_div_right ch i hC,
      Nat.div_eq_of_lt hch, Nat.zero_add]
  have hrev : ([C, N] : List Nat).reverse = [N, C] := rfl
  rw [hrev]
  simp only [toMulti, toFlat, listProd, List.foldr, Nat.div_one, Nat.mul_one,
    Nat.add_zero, List.reverse_cons, List.reverse_nil, List.nil_append,
    List.cons_append, Nat.mod_one]
  rw [hmod, hdiv]

theorem encodeHs_ok :
    ∀ {vals : List ℤ}, (∀ v ∈ vals, -32768 ≤ v ∧ v ≤ 32767) →
      ∃ bs, encodeHs vals = .ok bs ∧ bs.length = 2 * vals.length := by
  intro vals
  induction vals with
  | nil => exact fun _ => ⟨[], rfl, rfl⟩
  | cons v vs ih =>
    intro h
    obtain ⟨h1, h2⟩ := h v (List.mem_cons_self v vs)
    obtain ⟨bs, hbs, hlen⟩ := ih fun x hx => h x (List.mem_cons_of_mem v hx)
    rw [encodeHs, int16LE_ok h1 h2, bind_ok_eq, hbs, bind_ok_eq]
    refine ⟨_, rfl, ?_⟩
    simp only [List.length_append, List.length_cons, hlen]
    simp only [List.length_nil]
    omega

theorem encodeHs_getD :
    ∀ {vals : List ℤ} {bs : Buf}, encodeHs vals = .ok bs →
      ∀ p, p < vals.length →
      int16LE (vals.getD p 0) = .ok [bs.getD (2 * p) 0, bs.getD (2 * p + 1) 0] := by
  intro vals
  induction vals with
  | nil =>
    intro bs _ p hp
    simp at hp
  | cons v vs ih =>
    intro bs h p hp
    rw [encodeHs] at h
    obtain ⟨b, hb, h2⟩ := bindInv h
    obtain ⟨rest, hrest, h3⟩ := bindInv h2
    cases h3
    have hblen := int16LE_length hb
    cases p with
    | zero =>
      obtain ⟨x, y, hxy⟩ := List.length_eq_two.mp hblen
      subst hxy
      simpa using hb
    | succ q =>
      have hq := ih hrest q (by simpa using hp)
      rw [show ((v :: vs).getD (q + 1) 0) = vs.getD q 0 from rfl]
      rw [getD_append_right (by omega : b.length ≤ 2 * (q + 1))]
      rw [getD_append_right (by omega : b.length ≤ 2 * (q + 1) + 1)]
      rw [hblen]
      rw [show 2 * (q + 1) - 2 = 2 * q from by omega]
      rw [show 2 * (q + 1) + 1 - 2 = 2 * q + 1 from by omega]
      exact hq

theorem lt_pow2Q_127 {q : ℚ} (h : q ≤ 1000000) : q < pow2Q 127 := by
  rw [pow2Q, if_pos (by norm_num : (0 : ℤ) ≤ 127)]
  have h2 : (1000000 : ℚ) < ((2 ^ (127 : ℤ).toNat : ℕ) : ℚ) := by
    have h3 : (1000000 : ℕ) < 2 ^ (127 : ℤ).toNat := by
      rw [show (127 : ℤ).toNat = 127 from rfl]
      norm_num
    exact_mod_cast h3
  linarith

theorem headerStage1_ok {d : ByteBuf} {L C : Nat} {r : ℚ}
    (hsize : 2048 ≤ d.size) (hC : 1 ≤ C) (hC2 : C ≤ 32767)
    (hL : (L : ℤ) < 2 ^ 31) (hr : 1 ≤ r) :
    ∃ d', headerStage1 d L C r = .ok d' ∧ Preserves hdr1Set d d' := by
  have hr0 : ¬ r = 0 := by
    intro h
    rw [h] at hr
    norm_num at hr
  have hC0 : ¬ C = 0 := by omega
  have hsi0 : 0 < 1000000 / r / (C : ℚ) := by
    have hrpos : 0 < r := by linarith
    have hCpos : 0 < (C : ℚ) := by exact_mod_cast Nat.pos_of_ne_zero hC0
    positivity
  have hsi1 : 1000000 / r / (C : ℚ) < pow2Q 127 := by
    apply lt_pow2Q_127
    have hrpos : 0 < r := by linarith
    have hCpos : (1 : ℚ) ≤ (C : ℚ) := by exact_mod_cast hC
    have h1 : 1000000 / r ≤ 1000000 := by
      rw [div_le_iff₀ hrpos]
      nlinarith
    have h2 : 1000000 / r / (C : ℚ) ≤ 1000000 / r := by
      rw [div_le_iff₀ (by linarith : (0 : ℚ) < (C : ℚ))]
      nlinarith [div_nonneg (by norm_num : (0 : ℚ) ≤ 1000000) (le_of_lt hrpos)]
    linarith
  obtain ⟨d1, hd1, hp1⟩ := packS_ok (d := d) (n := 4) (z := 0)
    (s := [65, 66, 70, 32]) (by omega)
  have hs1 : d1.size = d.size := hp1.1
  obtain ⟨d2, hd2, hp2⟩ := packF_ok (d := d1) (z := 4) (q := 13 / 10)
    (by omega) (by norm_num) (lt_pow2Q_127 (by norm_num))
  have hs2 : d2.size = d.size := hp2.1.trans hs1
  obtain ⟨d3, hd3, hp3⟩ := packH_ok (d := d2) (z := 8) (v := 5)
    (by omega) (by norm_num) (by norm_num)
  have hs3 : d3.size = d.size := hp3.1.trans hs2
  obtain ⟨d4, hd4, hp4⟩ := packI_ok (d := d3) (z := 10) (v := (L : ℤ))
    (by omega) (by omega) hL
  have hs4 : d4.size = d.size := hp4.1.trans hs3
  obtain ⟨d5, hd5, hp5⟩ := packI_ok (d := d4) (z := 16) (v := 1)
    (by omega) (by norm_num) (by norm_num)
  have hs5 : d5.size = d.size := hp5.1.trans hs4
  obtain ⟨d6, hd6, hp6⟩ := packI_ok (d := d5) (z := 40) (v := 4)
    (by omega) (by norm_num) (by norm_num)
  have hs6 : d6.size = d.size := hp6.1.trans hs5
  obtain ⟨d7, hd7, hp7⟩ := packH_ok (d := d6) (z := 100) (v := 0)
    (by omega) (by norm_num) (by norm_num)
  have hs7 : d7.size = d.size := hp7.1.trans hs6
  obtain ⟨d8, hd8, hp8⟩ := packF_ok (d := d7) (z := 122)
    (q := 1000000 / r / (C : ℚ)) (by omega) hsi0 hsi1
  have hs8 : d8.size = d.size := hp8.1.trans hs7
  obtain ⟨d9, hd9, hp9⟩ := packI_ok (d := d8) (z := 138) (v := (L : ℤ))
    (by omega) (by omega) hL
  have hs9 : d9.size = d.size := hp9.1.trans hs8
  obtain ⟨d10, hd10, hp10⟩ := packH_ok (d := d9) (z := 120) (v := (C : ℤ))
    (by omega) (by omega) (by omega)
  have hs10 : d10.size = d.size := hp10.1.trans hs9
  obtain ⟨dF, hdF, hpF⟩ := foldRangeM_ok (P := hdr1Set)
    (f := fun dd ch => do
      let dd ← packH dd (378 + 2 * ch) (if ch < C then (ch : ℤ) else -1)
      packH dd (410 + 2 * ch) (if ch < C then (ch : ℤ) else -1))
    (n := 16) (s := 0) (a := d10)
    (by
      intro db ch h0 h16 hsz
      have hv1 : -32768 ≤ (if ch < C then (ch : ℤ) else -1) := by
        split <;> omega
      have hv2 : (if ch < C then (ch : ℤ) else -1) ≤ 32767 := by
        split <;> omega
      obtain ⟨e1, he1, hq1⟩ := packH_ok (d := db) (z := 378 + 2 * ch)
        (v := if ch < C then (ch : ℤ) else -1) (by omega) hv1 hv2
      have hse1 : e1.size = db.size := hq1.1
      obtain ⟨e2, he2, hq2⟩ := packH_ok (d := e1) (z := 410 + 2 * ch)
        (v := if ch < C then (ch : ℤ) else -1) (by omega) hv1 hv2
      refine ⟨e2, ?_, ?_⟩
      · show (packH db (378 + 2 * ch) (if ch < C then (ch : ℤ) else -1) >>=
          fun dd => packH dd (410 + 2 * ch)
            (if ch < C then (ch : ℤ) else -1)) = .ok e2
        rw [he1, bind_ok_eq, he2]
      · refine preserves_trans
          (preserves_mono (fun o ho => ?_) hq1)
          (preserves_mono (fun o ho => ?_) hq2)
        · unfold hdr1Set
          omega
        · unfold hdr1Set
          omega)
  refine ⟨dF, ?_, ?_⟩
  · rw [headerStage1]
    rw [hd1, bind_ok_eq, hd2, bind_ok_eq, hd3, bind_ok_eq, hd4, bind_ok_eq,
      hd5, bind_ok_eq, hd6, bind_ok_eq, hd7, bind_ok_eq]
    rw [if_neg hr0, if_neg hC0]
    rw [hd8, bind_ok_eq, hd9, bind_ok_eq, hd10, bind_ok_eq]
    exact hdF
  · refine preserves_trans (preserves_mono (fun o ho => ?_) hp1)
      (preserves_trans (preserves_mono (fun o ho => ?_) hp2)
      (preserves_trans (preserves_mono (fun o ho => ?_) hp3)
      (preserves_trans (preserves_mono (fun o ho => ?_) hp4)
      (preserves_trans (preserves_mono (fun o ho => ?_) hp5)
      (preserves_trans (preserves_mono (fun o ho => ?_) hp6)
      (preserves_trans (preserves_mono (fun o ho => ?_) hp7)
      (preserves_trans (preserves_mono (fun o ho => ?_) hp8)
      (preserves_trans (preserves_mono (fun o ho => ?_) hp9)
      (preserves_trans (preserves_mono (fun o ho => ?_) hp10) hpF))))))))) <;>
      (unfold hdr1Set; omega)

theorem pyIdx_ok {α : Type} {l : List α} {i : ℤ} (h0 : 0 ≤ i)
    (h1 : i.toNat < l.length) : pyIdx l i = .ok (l.get ⟨i.toNat, h1⟩) := by
  rw [pyIdx]
  have hj : (if i < 0 then i + (l.length : ℤ) else i) = i := if_neg (not_lt.mpr h0)
  simp only [hj]
  rw [dif_pos ⟨h0, h1⟩]

theorem headerStage2_ok {d : ByteBuf} {C : Nat} {fac : ℚ} {us : List Buf}
    (hsize : 2048 ≤ d.size) (hC : 1 ≤ C) (hus : us.length = C)
    (hf0 : 0 < fac) (hf1 : fac ≤ 1) :
    ∃ d', headerStage2 d C (some fac) us = .ok d' ∧ Preserves hdr2Set d d' := by
  obtain ⟨d1, hd1, hp1⟩ := packI_ok (d := d) (z := 252) (v := 2 ^ 15)
    (by omega) (by norm_num) (by norm_num)
  have hs1 : d1.size = d.size := hp1.1
  obtain ⟨d2, hd2, hp2⟩ := packF_ok (d := d1) (z := 244) (q := 10)
    (by omega) (by norm_num) (lt_pow2Q_127 (by norm_num))
  have hs2 : d2.size = d.size := hp2.1.trans hs1
  obtain ⟨dF, hdF, hpF⟩ := foldRangeM_ok (P := hdr2Set)
    (f := fun dd ch => do
      let f ← match (some fac : Option ℚ) with
        | none => Except.error PyErr.nameError
        | some f => Except.ok f
      let dd ← packF dd (922 + ch * 4) f
      let dd ← packF dd (1050 + ch * 4) 1
      let dd ← packF dd (730 + ch * 4) 1
      let u ← pyIdx us (min (ch : ℤ) ((C : ℤ) - 1))
      packS 8 dd (602 + ch * 8) u)
    (n := 16) (s := 0) (a := d2)
    (by
      intro db ch h0 h16 hsz
      obtain ⟨e1, he1, hq1⟩ := packF_ok (d := db) (z := 922 + ch * 4)
        (q := fac) (by omega) hf0 (lt_pow2Q_127 (by linarith))
      have hse1 : e1.size = db.size := hq1.1
      obtain ⟨e2, he2, hq2⟩ := packF_ok (d := e1) (z := 1050 + ch * 4)
        (q := 1) (by omega) (by norm_num) (lt_pow2Q_127 (by norm_num))
      have hse2 : e2.size = db.size := hq2.1.trans hse1
      obtain ⟨e3, he3, hq3⟩ := packF_ok (d := e2) (z := 730 + ch * 4)
        (q := 1) (by omega) (by norm_num) (lt_pow2Q_127 (by norm_num))
      have hse3 : e3.size = db.size := hq3.1.trans hse2
      have hidx0 : (0 : ℤ) ≤ min (ch : ℤ) ((C : ℤ) - 1) := by omega
      have hidx1 : (min (ch : ℤ) ((C : ℤ) - 1)).toNat < us.length := by
        rw [hus]
        omega
      have hu := pyIdx_ok hidx0 hidx1
      obtain ⟨e4, he4, hq4⟩ := packS_ok (d := e3) (n := 8)
        (z := 602 + ch * 8)
        (s := us.get ⟨(min (ch : ℤ) ((C : ℤ) - 1)).toNat, hidx1⟩) (by omega)
      refine ⟨e4, ?_, ?_⟩
      · show ((match (some fac : Option ℚ) with
          | none => Except.error PyErr.nameError
          | some f => Except.ok f) >>= fun f =>
            packF db (922 + ch * 4) f >>= fun dd =>
            packF dd (1050 + ch * 4) 1 >>= fun dd =>
            packF dd (730 + ch * 4) 1 >>= fun dd =>
            pyIdx us (min (ch : ℤ) ((C : ℤ) - 1)) >>= fun u =>
            packS 8 dd (602 + ch * 8) u) = .ok e4
        rw [show (match (some fac : Option ℚ) with
          | none => Except.error PyErr.nameError
          | some f => Except.ok f) = Except.ok fac from rfl]
        rw [bind_ok_eq, he1, bind_ok_eq, he2, bind_ok_eq, he3, bind_ok_eq,
          hu, bind_ok_eq, he4]
      · refine preserves_trans (preserves_mono (fun o ho => ?_) hq1)
          (preserves_trans (preserves_mono (fun o ho => ?_) hq2)
          (preserves_trans (preserves_mono (fun o ho => ?_) hq3)
          (preserves_mono (fun o ho => ?_) hq4))) <;>
          (unfold hdr2Set; omega))
  refine ⟨dF, ?_, ?_⟩
  · rw [headerStage2]
    rw [hd1, bind_ok_eq, hd2, bind_ok_eq]
    exact hdF
  · refine preserves_trans (preserves_mono (fun o ho => ?_) hp1)
      (preserves_trans (preserves_mono (fun o ho => ?_) hp2) hpF) <;>
      (unfold hdr2Set; omega)

theorem getD_eq_getElem_of_lt {α : Type} {l : List α} {j : Nat} (h : j < l.length)
    (d : α) : l.getD j d = l.get ⟨j, h⟩ := by
  rw [List.getD_eq_getElem?_getD, List.getElem?_eq_getElem h]
  rfl

theorem getD_mem_of_lt {α : Type} {l : List α} {j : Nat} (h : j < l.length)
    (d : α) : l.getD j d ∈ l := by
  rw [getD_eq_getElem_of_lt h]
  exact List.get_mem l j h

theorem getD_map_of_lt {α β : Type} {l : List α} {j : Nat} (h : j < l.length)
    (f : α → β) (d : β) (d' : α) : (l.map f).getD j d = f (l.getD j d') := by
  rw [List.getD_eq_getElem?_getD, List.getElem?_map,
    List.getElem?_eq_getElem h, getD_eq_getElem_of_lt h]
  rfl

theorem writeABF_run {rows : List (List ℚ)} {N : Nat} {units : List Buf} {r : ℚ}
    (hv : ValidInput rows N units r) :
    ∃ out, writeABF (mkArr2 rows) r units = .ok out ∧
      out.size = (N * rows.length * 2 / 512 + 1 + 4) * 512 ∧
      (∀ o, ¬ assignedByte (rows.length * N) o → out.get o = 0) ∧
      (∀ ch i, ch < rows.length → i < N → ∀ s,
        channelScaleOf (absMax (rows.getD ch [])) = some s →
        int16LE (ratTrunc ((rows.getD ch []).getD i 0 * s)) =
          .ok [out.get (2048 + 2 * (i * rows.length + ch)),
               out.get (2048 + 2 * (i * rows.length + ch) + 1)]) := by
  obtain ⟨hC, hC16, hrows, hN, hunits, hrate, hsizeI, hscale⟩ := hv
  have hne : rows ≠ [] := by
    intro h
    rw [h] at hC
    simp at hC
  have hN0 : (rows.headD []).length = N := by
    cases rows with
    | nil => exact absurd rfl hne
    | cons a as => exact hrows a (List.mem_cons_self a as)
  have hcore : writeABF (mkArr2 rows) r units =
      (headerStage1
        (zeroBuf (((rows.headD []).length * rows.length * 2 / 512 + 1 + 4) * 512))
        ((rows.headD []).length * rows.length) rows.length r >>= fun data =>
      (mapRangeM 0 rows.length fun ch =>
        absMaxList (sliceRow (mkArr2 rows) ch)) >>= fun maxVal =>
      (mapRangeM 0 rows.length fun ch =>
        pyIdx units (ch : ℤ) >>= fun u =>
          Except.ok (padUnit u)) >>= fun unitString =>
      headerStage2 data rows.length (scaleState maxVal).2 unitString >>= fun data =>
      ndReshape (ndTranspose (mkArr2 rows))
        [1, (rows.headD []).length * rows.length] >>= fun flat =>
      tileRepeatCount ((rows.headD []).length * rows.length)
        (scaleState maxVal).1.length >>= fun n =>
      npMultiply (sliceRow flat 0) (npTile (scaleState maxVal).1 n) >>= fun scaled =>
      packHs data 2048 (scaled.map ratTrunc)) := rfl
  rw [hN0] at hcore
  set C := rows.length with hCdef
  set SZ := (N * C * 2 / 512 + 1 + 4) * 512 with hSZdef
  have hsz2048 : 2048 ≤ SZ := by
    rw [hSZdef]
    omega
  have hzsize : (zeroBuf SZ).size = SZ := rfl
  have hLbound : ((N * C : Nat) : ℤ) < 2 ^ 31 := by
    have hcomm : C * N = N * C := Nat.mul_comm C N
    omega
  obtain ⟨d1, hd1, hp1⟩ := headerStage1_ok (d := zeroBuf SZ) (L := N * C)
    (C := C) (r := r) (by rw [hzsize]; exact hsz2048) hC (by omega) hLbound hrate
  have hs1 : d1.size = SZ := hp1.1.trans hzsize
  have hmax : ∀ j, j < C → absMaxList (sliceRow (mkArr2 rows) j) =
      .ok (absMax (rows.getD j [])) := by
    intro j hj
    rw [sliceRow_mkArr2 hrows hj]
    apply absMaxList_eq
    intro hnil
    have hmem : rows.getD j [] ∈ rows := getD_mem_of_lt hj []
    have hlen := hrows _ hmem
    rw [hnil] at hlen
    simp at hlen
    omega
  obtain ⟨mv, hmv, hmvlen, hmvidx⟩ := mapRangeM_ok (0 : ℚ)
    (n := C) (s := 0)
    (f := fun ch => absMaxList (sliceRow (mkArr2 rows) ch))
    (fun j hj => ⟨_, by rw [Nat.zero_add]; exact hmax j hj⟩)
  have hmvget : ∀ j, j < C → mv.getD j 0 = absMax (rows.getD j []) := by
    intro j hj
    have h1 := hmvidx j hj
    rw [Nat.zero_add, hmax j hj] at h1
    exact (Except.ok.inj h1).symm
  have hmv_some : ∀ m ∈ mv, (channelScaleOf m).isSome := by
    intro m hm
    obtain ⟨j, hj, hget⟩ := List.mem_iff_getElem.mp hm
    have hj' : j < C := by omega
    have h2 : mv.getD j 0 = m := by
      rw [getD_eq_getElem_of_lt hj]
      exact hget
    rw [hmvget j hj'] at h2
    rw [← h2]
    exact hscale _ (getD_mem_of_lt hj' [])
  have hvs : (scaleState mv).1 = mv.map fun m => (channelScaleOf m).getD 0 :=
    scaleState_all_some hmv_some
  have hvslen : (scaleState mv).1.length = C := by
    rw [hvs, List.length_map, hmvlen]
  obtain ⟨fac, hfac, hfac0, hfac1⟩ := @scaleState_lastFactor mv (by
    intro h
    rw [h] at hmvlen
    simp at hmvlen
    omega)
  obtain ⟨us2, hus2, hus2len, -⟩ := mapRangeM_ok ([] : Buf)
    (n := C) (s := 0)
    (f := fun ch => pyIdx units (ch : ℤ) >>= fun u => Except.ok (padUnit u))
    (fun j hj => by
      have hidx : ((j : ℤ)).toNat < units.length := by
        simp only [Int.toNat_natCast]
        omega
      refine ⟨padUnit (units.get ⟨((j : ℤ)).toNat, hidx⟩), ?_⟩
      show pyIdx units (((0 + j : Nat)) : ℤ) >>=
        (fun u => Except.ok (padUnit u)) = _
      rw [show ((0 + j : Nat) : ℤ) = (j : ℤ) by omega]
      rw [pyIdx_ok (by omega) hidx, bind_ok_eq])
  obtain ⟨d2, hd2, hp2⟩ := @headerStage2_ok d1 C fac us2
    (by omega) hC hus2len hfac0 hfac1
  have hs2 : d2.size = SZ := hp2.1.trans hs1
  have harr : mkArr2 rows = ⟨[C, N], rows.flatten⟩ := by
    rw [mkArr2, hN0]
  have hflatlen : (ndTranspose (mkArr2 rows)).data.length = N * C := by
    rw [ndTranspose]
    simp only [List.length_map, List.length_range]
    rw [harr]
    show listProd [C, N] = N * C
    simp [listProd]
    ring
  have hresh : ndReshape (ndTranspose (mkArr2 rows)) [1, N * C] =
      .ok ⟨[1, N * C], (ndTranspose (mkArr2 rows)).data⟩ := by
    rw [ndReshape, if_pos]
    rw [hflatlen]
    simp [listProd]
  have hchdata : sliceRow ⟨[1, N * C], (ndTranspose (mkArr2 rows)).data⟩ 0 =
      (ndTranspose (mkArr2 rows)).data := by
    rw [sliceRow]
    show (((ndTranspose (mkArr2 rows)).data.drop (0 * listProd [N * C])).take
      (listProd [N * C])) = _
    rw [Nat.zero_mul, List.drop_zero]
    rw [show listProd [N * C] = N * C by simp [listProd]]
    rw [← hflatlen, List.take_length]
  have htile : tileRepeatCount (N * C) (scaleState mv).1.length = .ok N := by
    rw [tileRepeatCount, hvslen, if_neg (by omega : ¬ C = 0)]
    rw [Nat.mul_div_cancel N (by omega : 0 < C)]
  have hmul : npMultiply (ndTranspose (mkArr2 rows)).data
      (npTile (scaleState mv).1 N) =
      .ok (List.zipWith (· * ·) (ndTranspose (mkArr2 rows)).data
        (npTile (scaleState mv).1 N)) := by
    rw [npMultiply, if_pos]
    rw [hflatlen, npTile_length, hvslen]
  have htr : ∀ i ch, ch < C → i < N →
      (ndTranspose (mkArr2 rows)).data.getD (i * C + ch) 0 =
        rows.flatten.getD (ch * N + i) 0 := by
    intro i ch hch hi
    rw [harr]
    exact ndTranspose_getD hch hi
  have hvsget : ∀ j, j < C → (scaleState mv).1.getD j 0 =
      (channelScaleOf (mv.getD j 0)).getD 0 := by
    intro j hj
    rw [hvs]
    exact getD_map_of_lt (by omega) _ 0 0
  have hidxlt : ∀ i ch, ch < C → i < N → i * C + ch < N * C := by
    intro i ch hch hi
    have h1 : i * C + ch < (i + 1) * C := by
      have : (i + 1) * C = i * C + C := by ring
      omega
    have h2 : (i + 1) * C ≤ N * C := Nat.mul_le_mul_right C (by omega)
    omega
  have hentry2 : ∀ ch i, ch < C → i < N → ∀ s,
      channelScaleOf (absMax (rows.getD ch [])) = some s →
      (List.zipWith (· * ·) (ndTranspose (mkArr2 rows)).data
        (npTile (scaleState mv).1 N)).getD (i * C + ch) 0 =
        (rows.getD ch []).getD i 0 * s ∧
      -32768 ≤ ratTrunc ((rows.getD ch []).getD i 0 * s) ∧
      ratTrunc ((rows.getD ch []).getD i 0 * s) ≤ 32767 := by
    intro ch i hch hi s hs
    have hplt : i * C + ch < N * C := hidxlt i ch hch hi
    have hmodC : (i * C + ch) % C = ch := by
      rw [Nat.add_comm, Nat.add_mul_mod_self_right, Nat.mod_eq_of_lt hch]
    have hzip : (List.zipWith (· * ·) (ndTranspose (mkArr2 rows)).data
        (npTile (scaleState mv).1 N)).getD (i * C + ch) 0 =
        (ndTranspose (mkArr2 rows)).data.getD (i * C + ch) 0 *
          (npTile (scaleState mv).1 N).getD (i * C + ch) 0 :=
      getD_zipWith_mul (by rw [hflatlen]; omega)
        (by rw [npTile_length, hvslen]; omega)
    have htd : (ndTranspose (mkArr2 rows)).data.getD (i * C + ch) 0 =
        (rows.getD ch []).getD i 0 := by
      rw [htr i ch hch hi]
      exact flatten_rows_getD [] rows ch i hrows (by omega) hi
    have hti : (npTile (scaleState mv).1 N).getD (i * C + ch) 0 = s := by
      rw [npTile_getD N (i * C + ch) (by rw [hvslen]; omega)]
      rw [hvslen, hmodC]
      rw [hvsget ch hch, hmvget ch hch, hs]
      rfl
    have hval : (List.zipWith (· * ·) (ndTranspose (mkArr2 rows)).data
        (npTile (scaleState mv).1 N)).getD (i * C + ch) 0 =
        (rows.getD ch []).getD i 0 * s := by
      rw [hzip, htd, hti]
    have hrowmem : rows.getD ch [] ∈ rows := getD_mem_of_lt (by omega) []
    have hxmem : (rows.getD ch []).getD i 0 ∈ rows.getD ch [] := by
      apply getD_mem_of_lt
      rw [hrows _ hrowmem]
      exact hi
    have habs : |(rows.getD ch []).getD i 0| ≤ absMax (rows.getD ch []) :=
      absMax_mem hxmem
    have hqb := quantBound habs (channelScaleOf_pos hs).1
      (channelScaleOf_pos hs).2
    exact ⟨hval, le_trans (by norm_num) hqb.1, hqb.2⟩
  have hvalslen : ((List.zipWith (· * ·) (ndTranspose (mkArr2 rows)).data
      (npTile (scaleState mv).1 N)).map ratTrunc).length = N * C := by
    rw [List.length_map, List.length_zipWith, hflatlen, npTile_length, hvslen]
    omega
  have hvbound : ∀ v ∈ (List.zipWith (· * ·) (ndTranspose (mkArr2 rows)).data
      (npTile (scaleState mv).1 N)).map ratTrunc, -32768 ≤ v ∧ v ≤ 32767 := by
    intro v hvmem
    obtain ⟨p, hp, hgetp⟩ := List.mem_iff_getElem.mp hvmem
    have hp' : p < N * C := by omega
    have hCpos : 0 < C := by omega
    have hch : p % C < C := Nat.mod_lt p hCpos
    have hi : p / C < N := by
      rw [Nat.div_lt_iff_lt_mul hCpos]
      omega
    have hpdecomp : p = p / C * C + p % C := by
      have h := Nat.div_add_mod p C
      rw [Nat.mul_comm] at h
      omega
    obtain ⟨s, hs⟩ := Option.isSome_iff_exists.mp
      (hscale _ (getD_mem_of_lt (show p % C < rows.length by omega) []))
    obtain ⟨hval, hb1, hb2⟩ := hentry2 (p % C) (p / C) hch hi s hs
    have hv1 : ((List.zipWith (· * ·) (ndTranspose (mkArr2 rows)).data
        (npTile (scaleState mv).1 N)).map ratTrunc).getD p 0 = v := by
      rw [getD_eq_getElem_of_lt hp]
      exact hgetp
    have hv2 : ((List.zipWith (· * ·) (ndTranspose (mkArr2 rows)).data
        (npTile (scaleState mv).1 N)).map ratTrunc).getD p 0 =
        ratTrunc ((List.zipWith (· * ·) (ndTranspose (mkArr2 rows)).data
          (npTile (scaleState mv).1 N)).getD p 0) :=
      getD_map_of_lt (by
        rw [List.length_zipWith, hflatlen, npTile_length, hvslen]
        omega) ratTrunc 0 0
    rw [← hv1, hv2]
    conv_lhs => rw [hpdecomp]
    conv_rhs => rw [hpdecomp]
    rw [hval]
    exact ⟨hb1, hb2⟩
  obtain ⟨bs, hbs, hbslen⟩ := encodeHs_ok hvbound
  have hbound : 2048 + bs.length ≤ d2.size := by
    rw [hbslen, hvalslen, hs2, hSZdef]
    omega
  have hpackOut := packBytes_ok hbound
  obtain ⟨-, hOsize, hOout, hOin⟩ := packBytesInv hpackOut
  refine ⟨⟨d2.size, fun o =>
      if 2048 ≤ o ∧ o < 2048 + bs.length then bs.getD (o - 2048) 0
      else d2.get o⟩, ?_, ?_, ?_, ?_⟩
  · rw [hcore, hd1, bind_ok_eq, hmv, bind_ok_eq, hus2, bind_ok_eq, hfac,
      hd2, bind_ok_eq, hresh, bind_ok_eq, htile, bind_ok_eq, hchdata,
      hmul, bind_ok_eq, packHs, hbs, bind_ok_eq, hpackOut]
  · exact hs2.trans hSZdef
  · intro o ho
    rw [show C * N = N * C from Nat.mul_comm C N] at ho
    have hnd : ¬ (2048 ≤ o ∧ o < 2048 + bs.length) := by
      rw [hbslen, hvalslen]
      intro hcon
      exact ho (by rw [assignedByte]; omega)
    rw [hOout o hnd]
    rw [hp2.2 o (by
      intro hcon
      apply ho
      rw [assignedByte]
      rw [hdr2Set] at hcon
      omega)]
    rw [hp1.2 o (by
      intro hcon
      apply ho
      rw [assignedByte]
      rw [hdr1Set] at hcon
      omega)]
    rfl
  · intro ch i hch hi s hs
    have hplt : i * C + ch < N * C := hidxlt i ch hch hi
    have hget := encodeHs_getD hbs (i * C + ch) (by rw [hvalslen]; exact hplt)
    obtain ⟨hval, -, -⟩ := hentry2 ch i hch hi s hs
    have hv2 : ((List.zipWith (· * ·) (ndTranspose (mkArr2 rows)).data
        (npTile (scaleState mv).1 N)).map ratTrunc).getD (i * C + ch) 0 =
        ratTrunc ((rows.getD ch []).getD i 0 * s) := by
      rw [getD_map_of_lt (by
        rw [List.length_zipWith, hflatlen, npTile_length, hvslen]
        omega) ratTrunc 0 0, hval]
    rw [hv2] at hget
    have hblen2 : bs.length = 2 * (N * C) := by rw [hbslen, hvalslen]
    have ho1 := hOin (2048 + 2 * (i * C + ch)) (by omega)
      (by rw [hblen2]; omega)
    have ho2 := hOin (2048 + 2 * (i * C + ch) + 1) (by omega)
      (by rw [hblen2]; omega)
    rw [show 2048 + 2 * (i * C + ch) - 2048 = 2 * (i * C + ch) from by omega]
      at ho1
    rw [show 2048 + 2 * (i * C + ch) + 1 - 2048 = 2 * (i * C + ch) + 1 from
      by omega] at ho2
    rw [ho1, ho2]
    exact hget

theorem decodeInt16LE_int16LE {v : ℤ} {b0 b1 : Nat}
    (h : int16LE v = .ok [b0, b1]) : decodeInt16LE b0 b1 = v := by
  by_cases hr : -32768 ≤ v ∧ v ≤ 32767
  · rw [int16LE, if_pos hr] at h
    have h2 : [(v % 65536).toNat % 256, (v % 65536).toNat / 256] = [b0, b1] :=
      Except.ok.inj h
    have hb0 : (v % 65536).toNat % 256 = b0 := by
      injection h2
    have hb1 : (v % 65536).toNat / 256 = b1 := by
      have := List.tail_eq_of_cons_eq h2
      injection this
    rw [decodeInt16LE, ← hb0, ← hb1]
    have hm0 : 0 ≤ v % 65536 := Int.emod_nonneg v (by norm_num)
    have hm1 : v % 65536 < 65536 := Int.emod_lt_of_pos v (by norm_num)
    split
    · omega
    · omega
  · rw [int16LE, if_neg hr] at h
    cases h

theorem pyIdx_err {α : Type} {l : List α} {i : ℤ} (h0 : 0 ≤ i)
    (h1 : l.length ≤ i.toNat) : pyIdx l i = .error .indexError := by
  rw [pyIdx]
  have hj : (if i < 0 then i + (l.length : ℤ) else i) = i := if_neg (not_lt.mpr h0)
  simp only [hj]
  rw [dif_neg]
  rintro ⟨-, hlt⟩
  omega

theorem scanScale_none {m : ℚ}
    (h : ∀ k, 1 ≤ k → k ≤ 10 → maxDeviationAt k < m) :
    (scanScale m).2 = none ∧ (scanScale m).1 = instFactorAt 10 := by
  have h1 : ¬ ((32767 : ℚ) / (2 ^ 15 / 10 * (1 / 10)) ≥ m) :=
    not_le.mpr (h 1 (by norm_num) (by norm_num))
  have h2 : ¬ ((32767 : ℚ) / (2 ^ 15 / 10 * (1 / 10 / 10)) ≥ m) :=
    not_le.mpr (h 2 (by norm_num) (by norm_num))
  have h3 : ¬ ((32767 : ℚ) / (2 ^ 15 / 10 * (1 / 10 / 10 / 10)) ≥ m) :=
    not_le.mpr (h 3 (by norm_num) (by norm_num))
  have h4 : ¬ ((32767 : ℚ) / (2 ^ 15 / 10 * (1 / 10 / 10 / 10 / 10)) ≥ m) :=
    not_le.mpr (h 4 (by norm_num) (by norm_num))
  have h5 : ¬ ((32767 : ℚ) / (2 ^ 15 / 10 * (1 / 10 / 10 / 10 / 10 / 10)) ≥ m) :=
    not_le.mpr (h 5 (by norm_num) (by norm_num))
  have h6 : ¬ ((32767 : ℚ) / (2 ^ 15 / 10 * (1 / 10 / 10 / 10 / 10 / 10 / 10)) ≥ m) :=
    not_le.mpr (h 6 (by norm_num) (by norm_num))
  have h7 : ¬ ((32767 : ℚ) / (2 ^ 15 / 10 * (1 / 10 / 10 / 10 / 10 / 10 / 10 / 10)) ≥ m) :=
    not_le.mpr (h 7 (by norm_num) (by norm_num))
  have h8 : ¬ ((32767 : ℚ) / (2 ^ 15 / 10 * (1 / 10 / 10 / 10 / 10 / 10 / 10 / 10 / 10)) ≥ m) :=
    not_le.mpr (h 8 (by norm_num) (by norm_num))
  have h9 : ¬ ((32767 : ℚ) / (2 ^ 15 / 10 * (1 / 10 / 10 / 10 / 10 / 10 / 10 / 10 / 10 / 10)) ≥ m) :=
    not_le.mpr (h 9 (by norm_num) (by norm_num))
  have h10 : ¬ ((32767 : ℚ) / (2 ^ 15 / 10 * (1 / 10 / 10 / 10 / 10 / 10 / 10 / 10 / 10 / 10 / 10)) ≥ m) :=
    not_le.mpr (h 10 (by norm_num) (by norm_num))
  rw [scanScale]
  rw [scanScaleGo, if_neg h1, scanScaleGo, if_neg h2, scanScaleGo, if_neg h3,
    scanScaleGo, if_neg h4, scanScaleGo, if_neg h5, scanScaleGo, if_neg h6,
    scanScaleGo, if_neg h7, scanScaleGo, if_neg h8, scanScaleGo, if_neg h9,
    scanScaleGo, if_neg h10, scanScaleGo]
  exact ⟨rfl, rfl⟩

/-!
## Claim theorems
-/

/-- C4: for every valid multi-channel input, sample `i` of channel `ch` is
stored in the output buffer as a signed 16-bit little-endian integer at byte
offset `2048 + (i*channelCount + ch)*2`: the two bytes there are exactly the
little-endian encoding of the quantized sample
`trunc(matrix[ch][i] * ChannelScale[ch])`, i.e. the interleaved flat
sequence satisfies `output[i*channelCount + ch] = quantized matrix[ch][i]`. -/
theorem claim4_interleaving_law {rows : List (List ℚ)} {N : Nat}
    {units : List Buf} {r : ℚ} {out : ByteBuf}
    (hv : ValidInput rows N units r)
    (hout : writeABF (mkArr2 rows) r units = .ok out)
    {ch i : Nat} (hch : ch < rows.length) (hi : i < N) {s : ℚ}
    (hs : channelScaleOf (absMax (rows.getD ch [])) = some s) :
    int16LE (ratTrunc ((rows.getD ch []).getD i 0 * s)) =
      .ok [out.get (2048 + (i * rows.length + ch) * 2),
           out.get (2048 + (i * rows.length + ch) * 2 + 1)] := by
  obtain ⟨out', hout', hsz, hzero, hdata⟩ := writeABF_run hv
  rw [hout] at hout'
  cases Except.ok.inj hout'
  rw [show (i * rows.length + ch) * 2 = 2 * (i * rows.length + ch) from
    Nat.mul_comm _ 2]
  exact hdata ch i hch hi s hs

/-- C5: for every valid input, the data block count is
`dataPointCount * 2 / 512 + 1` and the written file is exactly
`(dataBlocks + 4) * 512` bytes long. -/
theorem claim5_file_size {rows : List (List ℚ)} {N : Nat} {units : List Buf}
    {r : ℚ} {out : ByteBuf} (hv : ValidInput rows N units r)
    (hout : writeABF (mkArr2 rows) r units = .ok out) :
    (render out).length = (rows.length * N * 2 / 512 + 1 + 4) * 512 := by
  obtain ⟨out', hout', hsz, -, -⟩ := writeABF_run hv
  rw [hout] at hout'
  cases Except.ok.inj hout'
  rw [render, List.length_map, List.length_range, hsz, Nat.mul_comm N rows.length]

/-- C6: whenever scale selection succeeded for a channel, the quantized
value (truncation toward zero of `sample * ChannelScale`) of every sample
of that channel lies within `[-32767, 32767]`. -/
theorem claim6_quantized_in_range {row : List ℚ} {x s : ℚ} (hx : x ∈ row)
    (hs : channelScaleOf (absMax row) = some s) :
    -32767 ≤ ratTrunc (x * s) ∧ ratTrunc (x * s) ≤ 32767 :=
  quantBound (absMax_mem hx) (channelScaleOf_pos hs).1 (channelScaleOf_pos hs).2

/-- C7: round-trip: decoding the two data-region bytes of sample `i` of
channel `ch` as a little-endian signed 16-bit integer and dividing by the
channel's own scale reproduces the original sample within `1/ChannelScale`. -/
theorem claim7_roundtrip {rows : List (List ℚ)} {N : Nat} {units : List Buf}
    {r : ℚ} {out : ByteBuf} (hv : ValidInput rows N units r)
    (hout : writeABF (mkArr2 rows) r units = .ok out)
    {ch i : Nat} (hch : ch < rows.length) (hi : i < N) {s : ℚ}
    (hs : channelScaleOf (absMax (rows.getD ch [])) = some s) :
    |((decodeInt16LE (out.get (2048 + (i * rows.length + ch) * 2))
        (out.get (2048 + (i * rows.length + ch) * 2 + 1)) : ℤ) : ℚ) / s -
      (rows.getD ch []).getD i 0| ≤ 1 / s := by
  obtain ⟨out', hout', hsz, hzero, hdata⟩ := writeABF_run hv
  rw [hout] at hout'
  cases Except.ok.inj hout'
  have hd := hdata ch i hch hi s hs
  rw [show (i * rows.length + ch) * 2 = 2 * (i * rows.length + ch) from
    Nat.mul_comm _ 2]
  rw [decodeInt16LE_int16LE hd]
  have hs0 : 0 < s := (channelScaleOf_pos hs).1
  have htrb := ratTrunc_sub_le ((rows.getD ch []).getD i 0 * s)
  have heq : ((ratTrunc ((rows.getD ch []).getD i 0 * s) : ℤ) : ℚ) / s -
      (rows.getD ch []).getD i 0 =
      -(((rows.getD ch []).getD i 0 * s -
        ((ratTrunc ((rows.getD ch []).getD i 0 * s) : ℤ) : ℚ)) / s) := by
    field_simp
    ring
  rw [heq, abs_neg, abs_div, abs_of_pos hs0]
  gcongr

/-- C8: a rank-1 input of length `N` is encoded to exactly the same result
as the rank-2 input of shape `(1, N)` holding the same values (for every
sample rate and unit list, including all error cases). -/
theorem claim8_rank1_rank2_equal (v : List ℚ) (r : ℚ) (us : List Buf) :
    writeABF (mkArr1 v) r us = writeABF (mkArr2 [v]) r us := by
  have hm : mkArr2 [v] = ⟨[1, v.length], v⟩ := by
    rw [mkArr2]
    simp
  rw [hm]
  let F : NDArray → Except PyErr ByteBuf := fun channelData =>
    headerStage1
      (zeroBuf ((channelData.shape.getD 1 0 * channelData.shape.getD 0 0 * 2 /
        512 + 1 + 4) * 512))
      (channelData.shape.getD 1 0 * channelData.shape.getD 0 0)
      (channelData.shape.getD 0 0) r >>= fun data =>
    (mapRangeM 0 (channelData.shape.getD 0 0) fun ch =>
      absMaxList (sliceRow channelData ch)) >>= fun maxVal =>
    (mapRangeM 0 (channelData.shape.getD 0 0) fun ch =>
      pyIdx us (ch : ℤ) >>= fun u => Except.ok (padUnit u)) >>= fun unitString =>
    headerStage2 data (channelData.shape.getD 0 0) (scaleState maxVal).2
      unitString >>= fun data =>
    ndReshape (ndTranspose channelData)
      [1, channelData.shape.getD 1 0 * channelData.shape.getD 0 0] >>= fun flat =>
    tileRepeatCount (channelData.shape.getD 1 0 * channelData.shape.getD 0 0)
      (scaleState maxVal).1.length >>= fun n =>
    npMultiply (sliceRow flat 0) (npTile (scaleState maxVal).1 n) >>= fun scaled =>
    packHs data 2048 (scaled.map ratTrunc)
  have hA : writeABF ⟨[1, v.length], v⟩ r us = F ⟨[1, v.length], v⟩ := rfl
  have hB : writeABF (mkArr1 v) r us =
      ndReshape ⟨[v.length], v⟩ [1, v.length] >>= F := rfl
  have hresh : ndReshape ⟨[v.length], v⟩ [1, v.length] =
      .ok ⟨[1, v.length], v⟩ := by
    rw [ndReshape, if_pos]
    simp [listProd]
  rw [hA, hB, hresh, bind_ok_eq]

/-- C9: every byte of the output file that is not explicitly assigned —
header offsets outside the fields of the fixed layout and the trailing pad
of the final 512-byte block beyond the last sample — is zero. -/
theorem claim9_unassigned_zero {rows : List (List ℚ)} {N : Nat}
    {units : List Buf} {r : ℚ} {out : ByteBuf} {o : Nat}
    (hv : ValidInput rows N units r)
    (hout : writeABF (mkArr2 rows) r units = .ok out)
    (ho : o < out.size) (hna : ¬ assignedByte (rows.length * N) o) :
    out.get o = 0 := by
  obtain ⟨out', hout', hsz, hzero, -⟩ := writeABF_run hv
  rw [hout] at hout'
  cases Except.ok.inj hout'
  exact hzero o hna

/-- C10: when the unit-label list has fewer entries than the channel count
(in particular the default single-entry list with a multi-channel input),
the encoder raises `IndexError` in the unit-string loop, before the
destination file is opened, so no file is produced. -/
theorem claim10_missing_units_index_error {rows : List (List ℚ)} {N : Nat}
    {units : List Buf} {r : ℚ} (hC : 1 ≤ rows.length)
    (hCw : rows.length ≤ 32767)
    (hrows : ∀ row ∈ rows, row.length = N) (hN : 1 ≤ N) (hr : 1 ≤ r)
    (hL : 2 * (rows.length * N) < 2 ^ 31)
    (hu : units.length < rows.length) :
    writeABF (mkArr2 rows) r units = .error PyErr.indexError := by
  have hne : rows ≠ [] := by
    intro h
    rw [h] at hC
    simp at hC
  have hN0 : (rows.headD []).length = N := by
    cases rows with
    | nil => exact absurd rfl hne
    | cons a as => exact hrows a (List.mem_cons_self a as)
  have hcore : writeABF (mkArr2 rows) r units =
      (headerStage1
        (zeroBuf (((rows.headD []).length * rows.length * 2 / 512 + 1 + 4) * 512))
        ((rows.headD []).length * rows.length) rows.length r >>= fun data =>
      (mapRangeM 0 rows.length fun ch =>
        absMaxList (sliceRow (mkArr2 rows) ch)) >>= fun maxVal =>
      (mapRangeM 0 rows.length fun ch =>
        pyIdx units (ch : ℤ) >>= fun u =>
          Except.ok (padUnit u)) >>= fun unitString =>
      headerStage2 data rows.length (scaleState maxVal).2 unitString >>= fun data =>
      ndReshape (ndTranspose (mkArr2 rows))
        [1, (rows.headD []).length * rows.length] >>= fun flat =>
      tileRepeatCount ((rows.headD []).length * rows.length)
        (scaleState maxVal).1.length >>= fun n =>
      npMultiply (sliceRow flat 0) (npTile (scaleState maxVal).1 n) >>= fun scaled =>
      packHs data 2048 (scaled.map ratTrunc)) := rfl
  rw [hN0] at hcore
  set C := rows.length with hCdef
  set SZ := (N * C * 2 / 512 + 1 + 4) * 512 with hSZdef
  have hsz2048 : 2048 ≤ SZ := by
    rw [hSZdef]
    omega
  have hLbound : ((N * C : Nat) : ℤ) < 2 ^ 31 := by
    have hcomm : C * N = N * C := Nat.mul_comm C N
    omega
  obtain ⟨d1, hd1, hp1⟩ := headerStage1_ok (d := zeroBuf SZ) (L := N * C)
    (C := C) (r := r) hsz2048 hC hCw hLbound hr
  have hmax : ∀ j, j < C → absMaxList (sliceRow (mkArr2 rows) j) =
      .ok (absMax (rows.getD j [])) := by
    intro j hj
    rw [sliceRow_mkArr2 hrows hj]
    apply absMaxList_eq
    intro hnil
    have hmem : rows.getD j [] ∈ rows := getD_mem_of_lt hj []
    have hlen := hrows _ hmem
    rw [hnil] at hlen
    simp at hlen
    omega
  obtain ⟨mv, hmv, hmvlen, hmvidx⟩ := mapRangeM_ok (0 : ℚ)
    (n := C) (s := 0)
    (f := fun ch => absMaxList (sliceRow (mkArr2 rows) ch))
    (fun j hj => ⟨_, by rw [Nat.zero_add]; exact hmax j hj⟩)
  have huniterr : (mapRangeM 0 C fun ch =>
      pyIdx units (ch : ℤ) >>= fun u => Except.ok (padUnit u)) =
      .error PyErr.indexError := by
    apply mapRangeM_err (k := units.length) (by omega)
    · intro j hj
      have hidx : ((j : ℤ)).toNat < units.length := by
        simp only [Int.toNat_natCast]
        omega
      refine ⟨padUnit (units.get ⟨((j : ℤ)).toNat, hidx⟩), ?_⟩
      show pyIdx units (((0 + j : Nat)) : ℤ) >>=
        (fun u => Except.ok (padUnit u)) = _
      rw [show ((0 + j : Nat) : ℤ) = (j : ℤ) by omega]
      rw [pyIdx_ok (by omega) hidx, bind_ok_eq]
    · show pyIdx units (((0 + units.length : Nat)) : ℤ) >>=
        (fun u => Except.ok (padUnit u)) = _
      rw [show ((0 + units.length : Nat) : ℤ) = (units.length : ℤ) by omega]
      rw [pyIdx_err (by omega) (by simp), bind_err_eq]
  rw [hcore, hd1, bind_ok_eq, hmv, bind_ok_eq, huniterr, bind_err_eq]

/-- C2 (amended): a single-channel input whose maximum absolute value
exceeds the representable deviation at every attenuation step `k` in 1..10
makes the encoder fail — but with `ZeroDivisionError` (the scale list stays
empty, so `int(dataPointCount/0)` divides by zero while tiling), not with
any error identifying the channel; no file is produced. -/
theorem claim2_overflow_zero_division {row : List ℚ} {r : ℚ} {units : List Buf}
    (hrowN : 1 ≤ row.length) (hr : 1 ≤ r) (hu : 1 ≤ units.length)
    (hL : 2 * (1 * row.length) < 2 ^ 31)
    (hbig : ∀ k, 1 ≤ k → k ≤ 10 → maxDeviationAt k < absMax row) :
    writeABF (mkArr2 [row]) r units = .error PyErr.zeroDivisionError := by
  have hrows : ∀ r' ∈ [row], r'.length = row.length := by
    intro r' hr'
    rw [List.mem_singleton] at hr'
    rw [hr']
  have hcore : writeABF (mkArr2 [row]) r units =
      (headerStage1
        (zeroBuf ((row.length * 1 * 2 / 512 + 1 + 4) * 512))
        (row.length * 1) 1 r >>= fun data =>
      (mapRangeM 0 1 fun ch =>
        absMaxList (sliceRow (mkArr2 [row]) ch)) >>= fun maxVal =>
      (mapRangeM 0 1 fun ch =>
        pyIdx units (ch : ℤ) >>= fun u =>
          Except.ok (padUnit u)) >>= fun unitString =>
      headerStage2 data 1 (scaleState maxVal).2 unitString >>= fun data =>
      ndReshape (ndTranspose (mkArr2 [row]))
        [1, row.length * 1] >>= fun flat =>
      tileRepeatCount (row.length * 1)
        (scaleState maxVal).1.length >>= fun n =>
      npMultiply (sliceRow flat 0) (npTile (scaleState maxVal).1 n) >>= fun scaled =>
      packHs data 2048 (scaled.map ratTrunc)) := rfl
  set SZ := (row.length * 1 * 2 / 512 + 1 + 4) * 512 with hSZdef
  have hsz2048 : 2048 ≤ SZ := by
    rw [hSZdef]
    omega
  have hLbound : ((row.length * 1 : Nat) : ℤ) < 2 ^ 31 := by omega
  obtain ⟨d1, hd1, hp1⟩ := headerStage1_ok (d := zeroBuf SZ)
    (L := row.length * 1) (C := 1) (r := r) hsz2048 (by norm_num)
    (by norm_num) hLbound hr
  have hmax0 : absMaxList (sliceRow (mkArr2 [row]) 0) = .ok (absMax row) := by
    rw [sliceRow_mkArr2 hrows (by norm_num)]
    show absMaxList row = _
    apply absMaxList_eq
    intro hnil
    rw [hnil] at hrowN
    simp at hrowN
  obtain ⟨mv, hmv, hmvlen, hmvidx⟩ := mapRangeM_ok (0 : ℚ)
    (n := 1) (s := 0)
    (f := fun ch => absMaxList (sliceRow (mkArr2 [row]) ch))
    (fun j hj => by
      have hj0 : j = 0 := by omega
      subst hj0
      exact ⟨absMax row, by rw [Nat.zero_add]; exact hmax0⟩)
  have hmveq : mv = [absMax row] := by
    obtain ⟨a, ha⟩ := List.length_eq_one.mp hmvlen
    have h0 := hmvidx 0 (by norm_num)
    rw [Nat.zero_add, hmax0, ha] at h0
    rw [ha]
    have := Except.ok.inj h0
    rw [show ([a] : List ℚ).getD 0 0 = a from rfl] at this
    rw [← this]
  obtain ⟨hnone, hfact⟩ := scanScale_none hbig
  have hvs0 : (scaleState mv).1 = [] := by
    rw [hmveq, scaleState_cons]
    show ((scanScale (absMax row)).2).toList ++ (scaleState []).1 = []
    rw [hnone]
    rfl
  have hfac : (scaleState mv).2 = some (instFactorAt 10) := by
    rw [hmveq, scaleState_cons]
    show some (scanScale (absMax row)).1 = _
    rw [hfact]
  obtain ⟨us2, hus2, hus2len, -⟩ := mapRangeM_ok ([] : Buf)
    (n := 1) (s := 0)
    (f := fun ch => pyIdx units (ch : ℤ) >>= fun u => Except.ok (padUnit u))
    (fun j hj => by
      have hj0 : j = 0 := by omega
      subst hj0
      have hidx : ((0 : Nat) : ℤ).toNat < units.length := by
        simp only [Int.toNat_natCast]
        omega
      refine ⟨padUnit (units.get ⟨((0 : Nat) : ℤ).toNat, hidx⟩), ?_⟩
      show pyIdx units (((0 : Nat)) : ℤ) >>=
        (fun u => Except.ok (padUnit u)) = _
      rw [pyIdx_ok (by omega) hidx, bind_ok_eq])
  have hfpos := channelFactorOf_pos (absMax row)
  rw [channelFactorOf, hfact] at hfpos
  obtain ⟨d2, hd2, hp2⟩ := @headerStage2_ok d1 1 (instFactorAt 10) us2 (by
      have h1 := hp1.1
      have h2 : (zeroBuf SZ).size = SZ := rfl
      omega) (by norm_num) hus2len hfpos.1 hfpos.2
  have hflatlen : (ndTranspose (mkArr2 [row])).data.length = row.length * 1 := by
    rw [ndTranspose]
    simp only [List.length_map, List.length_range]
    show listProd (mkArr2 [row]).shape = _
    rw [mkArr2]
    show listProd [1, ([row].headD []).length] = _
    simp [listProd]
  have hresh : ndReshape (ndTranspose (mkArr2 [row])) [1, row.length * 1] =
      .ok ⟨[1, row.length * 1], (ndTranspose (mkArr2 [row])).data⟩ := by
    rw [ndReshape, if_pos]
    rw [hflatlen]
    simp [listProd]
  have htile : tileRepeatCount (row.length * 1) (scaleState mv).1.length =
      .error PyErr.zeroDivisionError := by
    rw [hvs0, tileRepeatCount]
    rfl
  rw [hcore, hd1, bind_ok_eq, hmv, bind_ok_eq, hus2, bind_ok_eq, hfac, hd2,
    bind_ok_eq, hresh, bind_ok_eq, htile, bind_err_eq]

set_option maxHeartbeats 3000000 in
/-- C1 (code bug in the source): at the failing input with two channels of
amplitudes 1 and 500, channel 0's own instrument factor is `1/10` and the
last channel's is `1/100`; the instrument-scale-factor header slot of
channel 0 (bytes 922..925 of the written file) holds the float32 encoding
of `1/100` — the shared loop variable's final value — which differs from
the encoding of channel 0's own factor `1/10`. -/
theorem claim1_instrument_factor_shared_bug :
    channelFactorOf (absMax [(1 : ℚ)]) = 1 / 10 ∧
    channelFactorOf (absMax [(500 : ℚ)]) = 1 / 100 ∧
    float32LE (1 / 100) = .ok [10, 215, 35, 60] ∧
    float32LE (1 / 10) = .ok [205, 204, 204, 61] ∧
    ((writeABF (mkArr2 [[1], [500]]) 10000 [[109, 86], [109, 86]]).map fun out =>
      [out.get 922, out.get 923, out.get 924, out.get 925]) =
      .ok [10, 215, 35, 60] := by
  refine ⟨?_, ?_, ?_, ?_, ?_⟩ <;> with_unfolding_all rfl

set_option maxHeartbeats 1000000 in
/-- C2 (counterexample): the single-channel input with amplitude `10^11`
exceeds the representable deviation at every attenuation step `k` in 1..10,
yet the encoder fails with `ZeroDivisionError` — there is no
`ScaleOverflowError` identifying the channel anywhere in the code. -/
theorem claim2_counterexample :
    (∀ k, 1 ≤ k → k ≤ 10 →
      maxDeviationAt k < absMax [(100000000000 : ℚ)]) ∧
    writeABF (mkArr2 [[100000000000]]) 10000 defaultUnits =
      .error PyErr.zeroDivisionError := by
  constructor
  · intro k h1 h2
    interval_cases k <;> exact of_decide_eq_true (by with_unfolding_all rfl)
  · with_unfolding_all rfl

set_option maxHeartbeats 1000000 in
/-- C3 (counterexample): the rank-3 input of shape `(1,1,1)` is encoded
successfully — it does not fail at all, let alone with a `ShapeError`. -/
theorem claim3_counterexample :
    (writeABF ⟨[1, 1, 1], [1]⟩ 10000 defaultUnits).isOk = true := by
  with_unfolding_all rfl

set_option maxHeartbeats 3000000 in
/-- C3 (amended): the code has no shape validation and no `ShapeError`:
a rank-3 input of shape `(1,1,1)` succeeds; a rank-3 input of shape
`(1,1,2)` fails with numpy's reshape `ValueError`; a zero-sample input
fails with numpy's empty-reduction `ValueError`; an input with 17 > 16
channels succeeds when 17 unit labels are supplied. -/
theorem claim3_no_shape_error :
    (writeABF ⟨[1, 1, 1], [1]⟩ 10000 defaultUnits).isOk = true ∧
    writeABF ⟨[1, 1, 2], [1, 2]⟩ 10000 defaultUnits =
      .error PyErr.valueError ∧
    writeABF ⟨[1, 0], []⟩ 10000 defaultUnits = .error PyErr.valueError ∧
    (writeABF (mkArr2 (List.replicate 17 [1])) 10000
      (List.replicate 17 [109, 86])).isOk = true := by
  refine ⟨?_, ?_, ?_, ?_⟩ <;> with_unfolding_all rfl

/-!
## Witnesses
-/

theorem ok_toOption_getD {α : Type} (e : Except PyErr α) (d : α)
    (h : e.isOk = true) : e = .ok (e.toOption.getD d) := by
  cases e with
  | error ex => exact absurd h (by simp [Except.isOk, Except.toBool])
  | ok v => rfl

set_option maxHeartbeats 1000000 in
/-- Witness for C2's amended theorem at the concrete input `[[10^11]]`. -/
theorem claim2_overflow_zero_division_witness :
    writeABF (mkArr2 [[100000000000]]) 10000 defaultUnits =
      .error PyErr.zeroDivisionError :=
  @claim2_overflow_zero_division [100000000000] 10000 defaultUnits
    (by norm_num) (by norm_num)
    (by with_unfolding_all decide) (by norm_num)
    (by
      intro k h1 h2
      interval_cases k <;> exact of_decide_eq_true (by with_unfolding_all rfl))

set_option maxHeartbeats 3000000 in
/-- Witness for C4 at the concrete input `[[1], [2]]`, channel 0, sample 0. -/
theorem claim4_interleaving_law_witness :
    int16LE (ratTrunc ((([[1], [2]] : List (List ℚ)).getD 0 []).getD 0 0 *
      (8192 / 25))) =
      .ok [((writeABF (mkArr2 [[1], [2]]) 10000
          [[109, 86], [109, 86]]).toOption.getD (zeroBuf 0)).get
            (2048 + (0 * 2 + 0) * 2),
        ((writeABF (mkArr2 [[1], [2]]) 10000
          [[109, 86], [109, 86]]).toOption.getD (zeroBuf 0)).get
            (2048 + (0 * 2 + 0) * 2 + 1)] :=
  @claim4_interleaving_law [[1], [2]] 1 [[109, 86], [109, 86]] 10000
    ((writeABF (mkArr2 [[1], [2]]) 10000
      [[109, 86], [109, 86]]).toOption.getD (zeroBuf 0))
    ⟨by norm_num, by norm_num, by with_unfolding_all decide, by norm_num,
      by with_unfolding_all decide, by norm_num, by norm_num,
      by with_unfolding_all decide⟩
    (ok_toOption_getD _ _ (by with_unfolding_all rfl)) 0 0
    (by norm_num) (by norm_num)
    (8192 / 25) (by with_unfolding_all rfl)

set_option maxHeartbeats 3000000 in
/-- Witness for C5 at the concrete input `[[1]]`. -/
theorem claim5_file_size_witness :
    (render ((writeABF (mkArr2 [[(1 : ℚ)]]) 10000 defaultUnits).toOption.getD
      (zeroBuf 0))).length = (1 * 1 * 2 / 512 + 1 + 4) * 512 :=
  @claim5_file_size [[1]] 1 defaultUnits 10000
    ((writeABF (mkArr2 [[(1 : ℚ)]]) 10000 defaultUnits).toOption.getD
      (zeroBuf 0))
    ⟨by norm_num, by norm_num, by with_unfolding_all decide, by norm_num,
      by with_unfolding_all decide, by norm_num, by norm_num,
      by with_unfolding_all decide⟩
    (ok_toOption_getD _ _ (by with_unfolding_all rfl))

/-- Witness for C6: the sample `1` of the channel `[1]` with its selected
scale `8192/25` quantizes inside the signed 16-bit range. -/
theorem claim6_quantized_in_range_witness :
    -32767 ≤ ratTrunc (1 * (8192 / 25)) ∧ ratTrunc (1 * (8192 / 25)) ≤ 32767 :=
  @claim6_quantized_in_range [1] 1 (8192 / 25)
    (by simp) (by with_unfolding_all rfl)

set_option maxHeartbeats 3000000 in
/-- Witness for C7 at the concrete input `[[1], [2]]`, channel 0, sample 0. -/
theorem claim7_roundtrip_witness :
    |((decodeInt16LE (((writeABF (mkArr2 [[1], [2]]) 10000
          [[109, 86], [109, 86]]).toOption.getD (zeroBuf 0)).get
            (2048 + (0 * 2 + 0) * 2))
        (((writeABF (mkArr2 [[1], [2]]) 10000
          [[109, 86], [109, 86]]).toOption.getD (zeroBuf 0)).get
            (2048 + (0 * 2 + 0) * 2 + 1)) : ℤ) : ℚ) / (8192 / 25) -
      (([[1], [2]] : List (List ℚ)).getD 0 []).getD 0 0| ≤ 1 / (8192 / 25) :=
  @claim7_roundtrip [[1], [2]] 1 [[109, 86], [109, 86]] 10000
    ((writeABF (mkArr2 [[1], [2]]) 10000
      [[109, 86], [109, 86]]).toOption.getD (zeroBuf 0))
    ⟨by norm_num, by norm_num, by with_unfolding_all decide, by norm_num,
      by with_unfolding_all decide, by norm_num, by norm_num,
      by with_unfolding_all decide⟩
    (ok_toOption_getD _ _ (by with_unfolding_all rfl)) 0 0
    (by norm_num) (by norm_num)
    (8192 / 25) (by with_unfolding_all rfl)

set_option maxHeartbeats 3000000 in
/-- Witness for C9 at the concrete input `[[1]]` and the unassigned header
offset 14. -/
theorem claim9_unassigned_zero_witness :
    ((writeABF (mkArr2 [[(1 : ℚ)]]) 10000 defaultUnits).toOption.getD
      (zeroBuf 0)).get 14 = 0 :=
  @claim9_unassigned_zero [[1]] 1 defaultUnits 10000
    ((writeABF (mkArr2 [[(1 : ℚ)]]) 10000 defaultUnits).toOption.getD
      (zeroBuf 0)) 14
    ⟨by norm_num, by norm_num, by with_unfolding_all decide, by norm_num,
      by with_unfolding_all decide, by norm_num, by norm_num,
      by with_unfolding_all decide⟩
    (ok_toOption_getD _ _ (by with_unfolding_all rfl))
    (by with_unfolding_all decide)
    (by
      intro h
      rw [assignedByte] at h
      omega)

/-- Witness for C10: two channels with the default single-entry unit list. -/
theorem claim10_missing_units_index_error_witness :
    writeABF (mkArr2 [[1], [2]]) 10000 defaultUnits =
      .error PyErr.indexError :=
  @claim10_missing_units_index_error [[1], [2]] 1 defaultUnits 10000
    (by norm_num) (by norm_num)
    (by with_unfolding_all decide) (by norm_num) (by norm_num) (by norm_num)
    (by with_unfolding_all decide)

set_option maxHeartbeats 1000000 in
/-- Witness for C8 at a concrete vector, rate and unit list. -/
theorem claim8_rank1_rank2_equal_witness :
    writeABF (mkArr1 [1, 2, 3]) 500 defaultUnits =
      writeABF (mkArr2 [[1, 2, 3]]) 500 defaultUnits :=
  claim8_rank1_rank2_equal [1, 2, 3] 500 defaultUnits
